import Mathlib

/-!
Verification development for the KodiScript language runtime
(lexer, parser, AST cache, tree-walking interpreter, builder boundary).

The definitions below are a shallow embedding, translated from the
TypeScript sources:
  * `src/src/lexer.ts`        (class Lexer, KEYWORDS table)
  * `src/src/parser.ts`       (class Parser, recursive descent)
  * token.ts                  (enum TokenType, interface Token)
  * ast.ts                    (the AstNode tagged union)
  * interpreter.ts            (class Interpreter with limits, closures,
                               for-loops, higher-order array natives,
                               lazy string-template evaluation)
  * natives.ts                (createNatives registry; modelled at the
                               interface level, see `defaultFuncs`)
  * `src/src/cache.ts`        (simpleHash, class ASTCache)
  * index.ts                  (class KodiScriptBuilder.execute)

Modelling conventions:
  * JavaScript numbers are modelled as rationals (ℚ).  Double rounding,
    NaN and Infinity are not modelled; no theorem below depends on them
    (division never occurs in any verified scenario).
  * JS `null` and `undefined` are both modelled as `Value.vnull`; absence
    of a key in a Map is modelled as `Option.none`.
  * A JS `Map<string, unknown>` is modelled as a function
    `String → Option Value`; `Map.set` is pointwise update, copying a map
    (`new Map(m)`) is the identity, `Map.delete` updates to `none`.
  * Wall-clock deadlines (`Date.now`, the `deadline` branch of
    `checkLimits`, `withTimeout`) are not modelled: they depend on real
    time.  All claims below assume no deadline is configured.
  * Thrown JS exceptions are modelled by an explicit result type `Res`
    threaded with the interpreter state; the `ReturnValue` control signal
    is its own constructor, distinguished from genuine errors.
  * The interpreter and parser recursions are not structurally
    terminating in general (function bodies, template re-parsing), so
    they take an explicit fuel argument; fuel exhaustion is a
    distinguished artificial error that no claim identifies with a
    source behaviour.
-/

namespace Kodi

/-! ## AST (from ast.ts): the closed tagged union of node kinds. -/

/-- AST nodes, one constructor per variant of the `AstNode` union in
ast.ts.  `Identifier` parameters of function literals carry only their
name, so parameter lists are lists of strings.  A `StringTemplate` node
stores its `parts` list; the parser always builds
`parts = [StringLiteral raw]`. -/
inductive AstNode where
  | numberLit (value : ℚ)
  | stringLit (value : String)
  | stringTemplate (parts : List AstNode)
  | booleanLit (value : Bool)
  | nullLit
  | identifier (name : String)
  | binaryExpr (operator : String) (left right : AstNode)
  | unaryExpr (operator : String) (operand : AstNode)
  | callExpr (callee : AstNode) (args : List AstNode)
  | memberExpr (object : AstNode) (property : String)
  | safeMemberExpr (object : AstNode) (property : String)
  | elvisExpr (left right : AstNode)
  | arrayLit (elements : List AstNode)
  | objectLit (properties : List (String × AstNode))
  | indexExpr (object index : AstNode)
  | functionLit (parameters : List String) (body : List AstNode)
  | letStmt (name : String) (value : AstNode)
  | assignStmt (name : String) (value : AstNode)
  | ifStmt (condition thenBranch : AstNode) (elseBranch : Option AstNode)
  | forStmt (varName : String) (iterable : AstNode) (body : List AstNode)
  | whileStmt (condition : AstNode) (body : List AstNode)
  | returnStmt (value : Option AstNode)
  | blockStmt (statements : List AstNode)
  | exprStmt (expression : AstNode)
  | program (statements : List AstNode)
  deriving Repr

/-! ## Runtime values (the dynamic value domain of interpreter.ts). -/

/-- Runtime values.  `vfunc` is the `FunctionValue` class: parameter
names, body statements (of the `BlockStatement`), and the captured
environment (a copy of the variable Map taken at creation).  `vnative`
represents a native function retrieved from the interpreter's function
registry by `evaluateIdentifier`; since the registry is immutable during
a run, storing the registered name is equivalent to storing the JS
function reference.  Host-bound objects (opaque class instances supplied
by the host) are outside this embedding. -/
inductive Value where
  | vnull
  | vbool (b : Bool)
  | vnum (q : ℚ)
  | vstr (s : String)
  | varr (elems : List Value)
  | vobj (fields : List (String × Value))
  | vfunc (params : List String) (body : List AstNode)
      (closure : String → Option Value)
  | vnative (name : String)

/-- The single flat mutable environment: a string-keyed map. -/
abbrev Env : Type := String → Option Value

/-- `Map.set name v` (pointwise update). -/
def Env.set (e : Env) (name : String) (v : Value) : Env :=
  fun k => if k = name then some v else e k

/-- `Map.delete name`. -/
def Env.del (e : Env) (name : String) : Env :=
  fun k => if k = name then none else e k

/-- The empty map. -/
def Env.empty : Env := fun _ => none

/-! ## Tokens (from token.ts). -/

/-- enum TokenType, one constructor per member.  Note that `FN`, `FOR`
and `IN` exist as token kinds even though the lexer keyword table never
produces them. -/
inductive TokenType where
  | NUMBER | STRING | STRING_TEMPLATE | IDENTIFIER | TRUE | FALSE | NULL
  | PLUS | MINUS | STAR | SLASH | PERCENT
  | EQ | NEQ | LT | LTE | GT | GTE
  | AND | OR | NOT
  | ASSIGN
  | LPAREN | RPAREN | LBRACE | RBRACE | LBRACKET | RBRACKET
  | COMMA | DOT | COLON | SEMICOLON
  | QUESTION_DOT | ELVIS
  | LET | IF | ELSE | RETURN | FN | FOR | IN
  | EOF
  deriving Repr, DecidableEq

/-- interface Token. -/
structure Token where
  type : TokenType
  value : String
  line : Nat
  column : Nat
  deriving Repr, DecidableEq

/-- createToken. -/
def createToken (type : TokenType) (value : String) (line column : Nat) :
    Token :=
  { type := type, value := value, line := line, column := column }

/-! ## Lexer (from `src/src/lexer.ts`). -/

/-- The KEYWORDS table of lexer.ts, verbatim.  The spellings `fn`,
`for` and `in` are absent: they lex as plain identifiers. -/
def KEYWORDS : List (String × TokenType) :=
  [ (("let"), .LET), (("if"), .IF), (("else"), .ELSE),
    (("return"), .RETURN), (("true"), .TRUE), (("false"), .FALSE),
    (("null"), .NULL), (("and"), .AND), (("or"), .OR), (("not"), .NOT) ]

/-- Lexer errors.  The source throws `Error` objects whose message text
is reproduced by `lexMsg` below. -/
inductive LexErr where
  | unexpectedChar (c : Char) (line column : Nat)
  | unterminatedString (line column : Nat)
  | unterminatedTemplate (line column : Nat)
  | fuelL
  deriving Repr, DecidableEq

/-- Message text of a lexer error, as built by the source `throw new
Error(...)` calls. -/
def lexMsg : LexErr → String
  | .unexpectedChar c line column =>
      ("Unexpected character \x27") ++ String.mk [c] ++
        ("\x27 at line ") ++ toString line ++ (", column ") ++
        toString column
  | .unterminatedString line column =>
      ("Unterminated string at line ") ++ toString line ++
        (", column ") ++ toString column
  | .unterminatedTemplate line column =>
      ("Unterminated template at line ") ++ toString line ++
        (", column ") ++ toString column
  | .fuelL => ("lexer fuel exhausted")

/-- isDigit. -/
def isDigit (c : Char) : Bool := ('0') ≤ c ∧ c ≤ ('9')

/-- isAlpha. -/
def isAlpha (c : Char) : Bool :=
  (('a') ≤ c ∧ c ≤ ('z')) ∨ (('A') ≤ c ∧ c ≤ ('Z')) ∨ c = ('_')

/-- isAlphaNumeric. -/
def isAlphaNumeric (c : Char) : Bool := isAlpha c ∨ isDigit c

/-- The string-template delimiter character (backtick, code point 96),
written via its code point. -/
def templateDelim : Char := Char.ofNat 96

/-- skipWhitespaceAndComments: consumes spaces, tabs, carriage returns,
newlines (bumping the line counter and resetting the column) and `//`
line comments; returns the remaining characters with the updated
position.  `fuel` bounds the iterations structurally (each iteration
consumes at least one character, so the callers' `length + 1` bound is
never exhausted; on exhaustion the input is returned unchanged). -/
def skipWs : Nat → List Char → Nat → Nat → List Char × Nat × Nat
  | 0, cs, line, column => (cs, line, column)
  | _ + 1, [], line, column => ([], line, column)
  | fuel + 1, c :: rest, line, column =>
    if c = (' ') ∨ c = ('\t') ∨ c = ('\r') then
      skipWs fuel rest line (column + 1)
    else if c = ('\n') then
      -- line++, column = 0, then advance() makes the column 1
      skipWs fuel rest (line + 1) 1
    else if c = ('/') ∧ rest.headD (' ') = ('/') then
      -- consume to end of line (the newline itself is handled on the
      -- next iteration); the column advances once per consumed char
      skipWs fuel (rest.dropWhile (fun d => ¬ d = ('\n')))
        line (column + 1 + (rest.takeWhile (fun d => ¬ d = ('\n'))).length)
    else
      (c :: rest, line, column)
  termination_by structural f _ _ _ => f

/-- readString: reads a quoted string literal after the opening quote
has been consumed, processing the escape table of the source.  Returns
the literal value, the rest of the input and the updated column (the
source's `advance` does not track newlines inside strings, mirroring
lexer.ts). -/
def readStringLoop (quote : Char) (startLine startColumn : Nat) :
    List Char → Nat → String → Except LexErr (String × List Char × Nat)
  | [], _, _ => .error (.unterminatedString startLine startColumn)
  | c :: rest, column, acc =>
    if c = quote then .ok (acc, rest, column + 1)
    else if c = ('\\') then
      match rest with
      | [] => .error (.unterminatedString startLine startColumn)
      | e :: rest2 =>
        let ch :=
          if e = ('n') then ('\n')
          else if e = ('t') then ('\t')
          else if e = ('r') then ('\r')
          else e
        readStringLoop quote startLine startColumn rest2 (column + 2)
          (acc.push ch)
    else
      readStringLoop quote startLine startColumn rest (column + 1)
        (acc.push c)
  termination_by structural cs _ _ => cs

/-- Modelled from the spec: the string-template branch of the lexer.
The template-producing code is missing from `src/` — `TokenType.
STRING_TEMPLATE` is declared in token.ts and consumed by parser.ts and
by the interpreter's lazy template evaluation, but the lexer file
present under `src/` (a stale revision) has no branch that emits it.
Following the spec ("String templates are lexed as a single opaque token
whose literal text is the raw, unescaped template body; no interpolation
parsing happens in the lexer"), a template is delimited by backticks,
its body is taken verbatim (no escape processing, no `${...}` parsing),
and only a missing closing delimiter is an error. -/
def readTemplate (startLine startColumn : Nat) (cs : List Char)
    (column : Nat) : Except LexErr (String × List Char × Nat) :=
  let body := cs.takeWhile (fun c => ¬ c = templateDelim)
  match (cs.dropWhile (fun c => ¬ c = templateDelim)) with
  | [] => .error (.unterminatedTemplate startLine startColumn)
  | _ :: rest => .ok (String.mk body, rest, column + body.length + 1)

/-- readNumber: digits, optionally a dot followed by at least one
digit. -/
def readNumber (cs : List Char) (column : Nat) :
    String × List Char × Nat :=
  let intPart := cs.takeWhile isDigit
  let rest := cs.dropWhile isDigit
  match rest with
  | d :: f :: rest2 =>
    if d = ('.') ∧ isDigit f then
      let frac := (f :: rest2).takeWhile isDigit
      let rest3 := (f :: rest2).dropWhile isDigit
      (String.mk intPart ++ (".") ++ String.mk frac, rest3,
        column + intPart.length + 1 + frac.length)
    else (String.mk intPart, rest, column + intPart.length)
  | _ => (String.mk intPart, rest, column + intPart.length)

/-- readIdentifier: an identifier or keyword token. -/
def readIdentifier (cs : List Char) (line column : Nat) :
    Token × List Char × Nat :=
  let chars := cs.takeWhile isAlphaNumeric
  let rest := cs.dropWhile isAlphaNumeric
  let value := String.mk chars
  let type := ((KEYWORDS.lookup value).getD .IDENTIFIER)
  (createToken type value line column, rest, column + chars.length)

/-- nextToken: one token starting at a non-whitespace character.
Returns the token, the remaining input and the updated line/column.
The operator switch mirrors the source's one-character lookahead
matches. -/
def nextToken (c : Char) (rest : List Char) (line column : Nat) :
    Except LexErr (Token × List Char × Nat × Nat) :=
  if c = ('"') ∨ c = ('\x27') then
    match readStringLoop c line column rest (column + 1) ("") with
    | .error e => .error e
    | .ok (value, rest2, column2) =>
      .ok (createToken .STRING value line column, rest2, line, column2)
  else if c = templateDelim then
    -- Modelled from the spec, see `readTemplate`.
    match readTemplate line column rest (column + 1) with
    | .error e => .error e
    | .ok (value, rest2, column2) =>
      .ok (createToken .STRING_TEMPLATE value line column, rest2, line,
        column2)
  else if isDigit c then
    let (value, rest2, column2) := readNumber (c :: rest) column
    .ok (createToken .NUMBER value line column, rest2, line, column2)
  else if isAlpha c then
    let (tok, rest2, column2) := readIdentifier (c :: rest) line column
    .ok (tok, rest2, line, column2)
  else
    let one := fun (t : TokenType) (s : String) =>
      Except.ok ((createToken t s line column, rest, line, column + 1) :
        Token × List Char × Nat × Nat)
    let two := fun (t : TokenType) (s : String) =>
      Except.ok ((createToken t s line column, rest.tail, line,
        column + 2) : Token × List Char × Nat × Nat)
    if c = ('+') then one .PLUS ("+")
    else if c = ('-') then one .MINUS ("-")
    else if c = ('*') then one .STAR ("*")
    else if c = ('/') then one .SLASH ("/")
    else if c = ('%') then one .PERCENT ("%")
    else if c = ('(') then one .LPAREN ("(")
    else if c = (')') then one .RPAREN (")")
    else if c = ('\x7b') then one .LBRACE ("\x7b")
    else if c = ('\x7d') then one .RBRACE ("\x7d")
    else if c = ('[') then one .LBRACKET ("[")
    else if c = (']') then one .RBRACKET ("]")
    else if c = (',') then one .COMMA (",")
    else if c = ('.') then one .DOT (".")
    else if c = (':') then one .COLON (":")
    else if c = (';') then one .SEMICOLON (";")
    else if c = ('=') then
      if rest.headD (' ') = ('=') then two .EQ ("==")
      else one .ASSIGN ("=")
    else if c = ('!') then
      if rest.headD (' ') = ('=') then two .NEQ ("!=")
      else one .NOT ("!")
    else if c = ('<') then
      if rest.headD (' ') = ('=') then two .LTE ("<=")
      else one .LT ("<")
    else if c = ('>') then
      if rest.headD (' ') = ('=') then two .GTE (">=")
      else one .GT (">")
    else if c = ('&') then
      if rest.headD (' ') = ('&') then two .AND ("&&")
      else .error (.unexpectedChar c line column)
    else if c = ('|') then
      if rest.headD (' ') = ('|') then two .OR ("||")
      else .error (.unexpectedChar c line column)
    else if c = ('?') then
      if rest.headD (' ') = ('.') then two .QUESTION_DOT ("?.")
      else if rest.headD (' ') = (':') then two .ELVIS ("?:")
      else .error (.unexpectedChar c line column)
    else .error (.unexpectedChar c line column)

/-- The main tokenize loop: skip whitespace/comments, emit the next
token, repeat; a final EOF token is appended.  `fuel` bounds the number
of iterations (each iteration consumes at least one character, so
`length + 1` always suffices). -/
def lexLoop : Nat → List Char → Nat → Nat → Except LexErr (List Token)
  | 0, _, _, _ => .error .fuelL
  | fuel + 1, cs, line, column =>
    match skipWs (cs.length + 1) cs line column with
    | ([], line2, column2) => .ok [createToken .EOF ("") line2 column2]
    | (c :: rest, line2, column2) =>
      match nextToken c rest line2 column2 with
      | .error e => .error e
      | .ok (tok, rest2, line3, column3) =>
        match lexLoop fuel rest2 line3 column3 with
        | .error e => .error e
        | .ok toks => .ok (tok :: toks)

/-- Lexer.tokenize. -/
def tokenize (source : String) : Except LexErr (List Token) :=
  lexLoop (source.length + 1) source.toList 1 1

/-! ## Parser (from `src/src/parser.ts`).

Each parse method of the source class becomes a function taking the
token array, the current position and a fuel bound on recursion depth;
it returns the parsed node together with the updated position.  The
parser state (`this.pos`) is threaded explicitly. -/

/-- Parser errors.  `expected msg line` is the `expect` failure path
(`"<msg> at line <line>"`), `unexpectedToken` the parsePrimary fallback
(`"Unexpected token: <value> at line <line>"`). -/
inductive ParseErr where
  | expected (msg : String) (line : Nat)
  | unexpectedToken (value : String) (line : Nat)
  | fuelP
  deriving Repr, DecidableEq

/-- Message text of a parser error as thrown by the source. -/
def parseMsg : ParseErr → String
  | .expected msg line => msg ++ (" at line ") ++ toString line
  | .unexpectedToken value line =>
      ("Unexpected token: ") ++ value ++ (" at line ") ++ toString line
  | .fuelP => ("parser fuel exhausted")

/-- `this.tokens[this.pos]` (the token list always ends in EOF when it
comes from the lexer, so the out-of-range default is never consulted on
lexer output). -/
def curTok (toks : List Token) (pos : Nat) : Token :=
  toks.getD pos (createToken .EOF ("") 0 0)

/-- `peek(offset)`: clamps to the last token past the end. -/
def peekTok (toks : List Token) (pos offset : Nat) : Token :=
  if toks.length ≤ pos + offset then
    toks.getD (toks.length - 1) (createToken .EOF ("") 0 0)
  else curTok toks (pos + offset)

/-- isAtEnd. -/
def atEnd (toks : List Token) (pos : Nat) : Bool :=
  (curTok toks pos).type = .EOF

/-- check(type). -/
def checkTok (toks : List Token) (pos : Nat) (type : TokenType) : Bool :=
  (¬ atEnd toks pos) ∧ (curTok toks pos).type = type

/-- expect(type, message): the token plus the advanced position, or an
error carrying the current token's line. -/
def expectTok (toks : List Token) (pos : Nat) (type : TokenType)
    (msg : String) : Except ParseErr (Token × Nat) :=
  if checkTok toks pos type then .ok (curTok toks pos, pos + 1)
  else .error (.expected msg (curTok toks pos).line)

/-- skipSemicolons. -/
def skipSemis (toks : List Token) (pos : Nat) : Nat :=
  pos + ((toks.drop pos).takeWhile (fun t => t.type = .SEMICOLON)).length

/-- consumeOptionalSemicolon (`match(SEMICOLON)`). -/
def optSemi (toks : List Token) (pos : Nat) : Nat :=
  if checkTok toks pos .SEMICOLON then pos + 1 else pos

/-- Digit run to a natural number. -/
def digitsToNat (cs : List Char) : Nat :=
  cs.foldl (fun a c => a * 10 + (c.toNat - 48)) 0

/-- parseFloat as applied to the lexer's NUMBER token text (digits with
an optional fractional part). -/
def parseNum (s : String) : ℚ :=
  let cs := s.toList
  let ip := cs.takeWhile isDigit
  let rest := cs.dropWhile isDigit
  match rest with
  | c :: fs =>
    if c = ('.') then
      (digitsToNat ip : ℚ) +
        (digitsToNat (fs.takeWhile isDigit) : ℚ) /
          ((10 : ℚ) ^ (fs.takeWhile isDigit).length)
    else (digitsToNat ip : ℚ)
  | _ => (digitsToNat ip : ℚ)

/-- parseStringTemplate: wraps the raw token text into a template node:
`{ type: StringTemplate, parts: [{ type: StringLiteral, value }] }`. -/
def parseStringTemplateTok (toks : List Token) (pos : Nat) :
    AstNode × Nat :=
  (.stringTemplate [.stringLit (curTok toks pos).value], pos + 1)

set_option maxHeartbeats 1000000 in
mutual

/-- The statement loop of `parse()`: parse statements until EOF. -/
def parseProgramLoop : Nat → List Token → Nat → List AstNode →
    Except ParseErr (List AstNode)
  | 0, _, _, _ => .error .fuelP
  | fuel + 1, toks, pos, acc =>
    if atEnd toks pos then .ok acc
    else
      match parseStatement fuel toks pos with
      | .error e => .error e
      | .ok (none, pos2) => parseProgramLoop fuel toks pos2 acc
      | .ok (some stmt, pos2) =>
        parseProgramLoop fuel toks pos2 (acc ++ [stmt])
  termination_by structural f _ _ _ => f

/-- parseStatement: returns `none` when skipping semicolons reached the
end of input. -/
def parseStatement : Nat → List Token → Nat →
    Except ParseErr (Option AstNode × Nat)
  | 0, _, _ => .error .fuelP
  | fuel + 1, toks, pos =>
    let pos := skipSemis toks pos
    if atEnd toks pos then .ok (none, pos)
    else if checkTok toks pos .LET then
      (parseLetStatement fuel toks pos).map (fun (s, p) => (some s, p))
    else if checkTok toks pos .IDENTIFIER ∧
        (peekTok toks pos 1).type = .ASSIGN then
      (parseAssignmentStatement fuel toks pos).map
        (fun (s, p) => (some s, p))
    else if checkTok toks pos .IF then
      (parseIfStatement fuel toks pos).map (fun (s, p) => (some s, p))
    else if checkTok toks pos .RETURN then
      (parseReturnStatement fuel toks pos).map (fun (s, p) => (some s, p))
    else if checkTok toks pos .FOR then
      (parseForStatement fuel toks pos).map (fun (s, p) => (some s, p))
    else if checkTok toks pos .LBRACE then
      (parseBlockStatement fuel toks pos).map (fun (s, p) => (some s, p))
    else
      (parseExpressionStatement fuel toks pos).map
        (fun (s, p) => (some s, p))
  termination_by structural f _ _ => f

/-- parseLetStatement. -/
def parseLetStatement : Nat → List Token → Nat →
    Except ParseErr (AstNode × Nat)
  | 0, _, _ => .error .fuelP
  | fuel + 1, toks, pos => do
    let pos := pos + 1  -- consume let
    let (nameTok, pos) ← expectTok toks pos .IDENTIFIER
      ("Expected variable name")
    let (_, pos) ← expectTok toks pos .ASSIGN
      ("Expected \x27=\x27 after variable name")
    let (value, pos) ← parseExpression fuel toks pos
    let pos := optSemi toks pos
    return (.letStmt nameTok.value value, pos)
  termination_by structural f _ _ => f

/-- parseAssignmentStatement. -/
def parseAssignmentStatement : Nat → List Token → Nat →
    Except ParseErr (AstNode × Nat)
  | 0, _, _ => .error .fuelP
  | fuel + 1, toks, pos => do
    let (nameTok, pos) ← expectTok toks pos .IDENTIFIER
      ("Expected variable name")
    let (_, pos) ← expectTok toks pos .ASSIGN
      ("Expected \x27=\x27 after variable name")
    let (value, pos) ← parseExpression fuel toks pos
    let pos := optSemi toks pos
    return (.assignStmt nameTok.value value, pos)
  termination_by structural f _ _ => f

/-- parseIfStatement.  When a branch position ends the input the source
stores the `null` returned by `parseStatement`; that corner is modelled
as the null-literal node. -/
def parseIfStatement : Nat → List Token → Nat →
    Except ParseErr (AstNode × Nat)
  | 0, _, _ => .error .fuelP
  | fuel + 1, toks, pos => do
    let pos := pos + 1  -- consume if
    let (_, pos) ← expectTok toks pos .LPAREN
      ("Expected \x27(\x27 after \x27if\x27")
    let (condition, pos) ← parseExpression fuel toks pos
    let (_, pos) ← expectTok toks pos .RPAREN
      ("Expected \x27)\x27 after condition")
    let (thenBranch, pos) ←
      if checkTok toks pos .LBRACE then parseBlockStatement fuel toks pos
      else
        (parseStatement fuel toks pos).map
          (fun (o, p) => (o.getD .nullLit, p))
    if checkTok toks pos .ELSE then
      let pos := pos + 1
      let (elseBranch, pos) ←
        if checkTok toks pos .LBRACE then
          parseBlockStatement fuel toks pos
        else
          (parseStatement fuel toks pos).map
            (fun (o, p) => (o.getD .nullLit, p))
      return (.ifStmt condition thenBranch (some elseBranch), pos)
    else
      return (.ifStmt condition thenBranch none, pos)
  termination_by structural f _ _ => f

/-- parseReturnStatement. -/
def parseReturnStatement : Nat → List Token → Nat →
    Except ParseErr (AstNode × Nat)
  | 0, _, _ => .error .fuelP
  | fuel + 1, toks, pos => do
    let pos := pos + 1  -- consume return
    if ¬ checkTok toks pos .SEMICOLON ∧ ¬ checkTok toks pos .RBRACE ∧
        ¬ atEnd toks pos then
      let (value, pos) ← parseExpression fuel toks pos
      let pos := optSemi toks pos
      return (.returnStmt (some value), pos)
    else
      let pos := optSemi toks pos
      return (.returnStmt none, pos)
  termination_by structural f _ _ => f

/-- parseForStatement.  Note the `IN` token type: the lexer keyword
table never produces it. -/
def parseForStatement : Nat → List Token → Nat →
    Except ParseErr (AstNode × Nat)
  | 0, _, _ => .error .fuelP
  | fuel + 1, toks, pos => do
    let pos := pos + 1  -- consume for
    let (_, pos) ← expectTok toks pos .LPAREN
      ("Expected \x27(\x27 after \x27for\x27")
    let (varTok, pos) ← expectTok toks pos .IDENTIFIER
      ("Expected variable name")
    let (_, pos) ← expectTok toks pos .IN
      ("Expected \x27in\x27 after variable name")
    let (iterable, pos) ← parseExpression fuel toks pos
    let (_, pos) ← expectTok toks pos .RPAREN
      ("Expected \x27)\x27 after iterable")
    let (body, pos) ← parseBlockStatement fuel toks pos
    match body with
    | .blockStmt stmts => return (.forStmt varTok.value iterable stmts, pos)
    | _ => return (.forStmt varTok.value iterable [body], pos)
  termination_by structural f _ _ => f

/-- parseBlockStatement: the opening brace is consumed without a check
(the callers guarded it, except parseForStatement/parseFunctionLiteral
which mirror the source's unchecked `advance()`). -/
def parseBlockStatement : Nat → List Token → Nat →
    Except ParseErr (AstNode × Nat)
  | 0, _, _ => .error .fuelP
  | fuel + 1, toks, pos => do
    let pos := pos + 1  -- consume left brace
    let (stmts, pos) ← parseBlockLoop fuel toks pos []
    let (_, pos) ← expectTok toks pos .RBRACE
      ("Expected \x27\x7d\x27 after block")
    return (.blockStmt stmts, pos)
  termination_by structural f _ _ => f

/-- The statement loop inside parseBlockStatement. -/
def parseBlockLoop : Nat → List Token → Nat → List AstNode →
    Except ParseErr (List AstNode × Nat)
  | 0, _, _, _ => .error .fuelP
  | fuel + 1, toks, pos, acc =>
    if ¬ checkTok toks pos .RBRACE ∧ ¬ atEnd toks pos then
      match parseStatement fuel toks pos with
      | .error e => .error e
      | .ok (none, pos2) => parseBlockLoop fuel toks pos2 acc
      | .ok (some stmt, pos2) => parseBlockLoop fuel toks pos2 (acc ++ [stmt])
    else .ok (acc, pos)
  termination_by structural f _ _ _ => f

/-- parseExpressionStatement. -/
def parseExpressionStatement : Nat → List Token → Nat →
    Except ParseErr (AstNode × Nat)
  | 0, _, _ => .error .fuelP
  | fuel + 1, toks, pos => do
    let (expression, pos) ← parseExpression fuel toks pos
    let pos := optSemi toks pos
    return (.exprStmt expression, pos)
  termination_by structural f _ _ => f

/-- parseExpression (the public entry, also used by the interpreter for
template sub-expressions). -/
def parseExpression : Nat → List Token → Nat →
    Except ParseErr (AstNode × Nat)
  | 0, _, _ => .error .fuelP
  | fuel + 1, toks, pos => parseElvis fuel toks pos
  termination_by structural f _ _ => f

/-- parseElvis. -/
def parseElvis : Nat → List Token → Nat →
    Except ParseErr (AstNode × Nat)
  | 0, _, _ => .error .fuelP
  | fuel + 1, toks, pos => do
    let (left, pos) ← parseOr fuel toks pos
    parseElvisLoop fuel toks pos left
  termination_by structural f _ _ => f

/-- The while-loop of parseElvis. -/
def parseElvisLoop : Nat → List Token → Nat → AstNode →
    Except ParseErr (AstNode × Nat)
  | 0, _, _, _ => .error .fuelP
  | fuel + 1, toks, pos, left =>
    if checkTok toks pos .ELVIS then do
      let (right, pos2) ← parseOr fuel toks (pos + 1)
      parseElvisLoop fuel toks pos2 (.elvisExpr left right)
    else .ok (left, pos)
  termination_by structural f _ _ _ => f

/-- parseOr. -/
def parseOr : Nat → List Token → Nat → Except ParseErr (AstNode × Nat)
  | 0, _, _ => .error .fuelP
  | fuel + 1, toks, pos => do
    let (left, pos) ← parseAnd fuel toks pos
    parseOrLoop fuel toks pos left
  termination_by structural f _ _ => f

/-- The while-loop of parseOr (the operator string is the token text,
`||` or `or`). -/
def parseOrLoop : Nat → List Token → Nat → AstNode →
    Except ParseErr (AstNode × Nat)
  | 0, _, _, _ => .error .fuelP
  | fuel + 1, toks, pos, left =>
    if checkTok toks pos .OR then do
      let op := (curTok toks pos).value
      let (right, pos2) ← parseAnd fuel toks (pos + 1)
      parseOrLoop fuel toks pos2 (.binaryExpr op left right)
    else .ok (left, pos)
  termination_by structural f _ _ _ => f

/-- parseAnd. -/
def parseAnd : Nat → List Token → Nat → Except ParseErr (AstNode × Nat)
  | 0, _, _ => .error .fuelP
  | fuel + 1, toks, pos => do
    let (left, pos) ← parseEquality fuel toks pos
    parseAndLoop fuel toks pos left
  termination_by structural f _ _ => f

/-- The while-loop of parseAnd. -/
def parseAndLoop : Nat → List Token → Nat → AstNode →
    Except ParseErr (AstNode × Nat)
  | 0, _, _, _ => .error .fuelP
  | fuel + 1, toks, pos, left =>
    if checkTok toks pos .AND then do
      let op := (curTok toks pos).value
      let (right, pos2) ← parseEquality fuel toks (pos + 1)
      parseAndLoop fuel toks pos2 (.binaryExpr op left right)
    else .ok (left, pos)
  termination_by structural f _ _ _ => f

/-- parseEquality. -/
def parseEquality : Nat → List Token → Nat →
    Except ParseErr (AstNode × Nat)
  | 0, _, _ => .error .fuelP
  | fuel + 1, toks, pos => do
    let (left, pos) ← parseComparison fuel toks pos
    parseEqualityLoop fuel toks pos left
  termination_by structural f _ _ => f

/-- The while-loop of parseEquality. -/
def parseEqualityLoop : Nat → List Token → Nat → AstNode →
    Except ParseErr (AstNode × Nat)
  | 0, _, _, _ => .error .fuelP
  | fuel + 1, toks, pos, left =>
    if checkTok toks pos .EQ ∨ checkTok toks pos .NEQ then do
      let op := (curTok toks pos).value
      let (right, pos2) ← parseComparison fuel toks (pos + 1)
      parseEqualityLoop fuel toks pos2 (.binaryExpr op left right)
    else .ok (left, pos)
  termination_by structural f _ _ _ => f

/-- parseComparison. -/
def parseComparison : Nat → List Token → Nat →
    Except ParseErr (AstNode × Nat)
  | 0, _, _ => .error .fuelP
  | fuel + 1, toks, pos => do
    let (left, pos) ← parseAdditive fuel toks pos
    parseComparisonLoop fuel toks pos left
  termination_by structural f _ _ => f

/-- The while-loop of parseComparison. -/
def parseComparisonLoop : Nat → List Token → Nat → AstNode →
    Except ParseErr (AstNode × Nat)
  | 0, _, _, _ => .error .fuelP
  | fuel + 1, toks, pos, left =>
    if checkTok toks pos .LT ∨ checkTok toks pos .LTE ∨
        checkTok toks pos .GT ∨ checkTok toks pos .GTE then do
      let op := (curTok toks pos).value
      let (right, pos2) ← parseAdditive fuel toks (pos + 1)
      parseComparisonLoop fuel toks pos2 (.binaryExpr op left right)
    else .ok (left, pos)
  termination_by structural f _ _ _ => f

/-- parseAdditive. -/
def parseAdditive : Nat → List Token → Nat →
    Except ParseErr (AstNode × Nat)
  | 0, _, _ => .error .fuelP
  | fuel + 1, toks, pos => do
    let (left, pos) ← parseMultiplicative fuel toks pos
    parseAdditiveLoop fuel toks pos left
  termination_by structural f _ _ => f

/-- The while-loop of parseAdditive. -/
def parseAdditiveLoop : Nat → List Token → Nat → AstNode →
    Except ParseErr (AstNode × Nat)
  | 0, _, _, _ => .error .fuelP
  | fuel + 1, toks, pos, left =>
    if checkTok toks pos .PLUS ∨ checkTok toks pos .MINUS then do
      let op := (curTok toks pos).value
      let (right, pos2) ← parseMultiplicative fuel toks (pos + 1)
      parseAdditiveLoop fuel toks pos2 (.binaryExpr op left right)
    else .ok (left, pos)
  termination_by structural f _ _ _ => f

/-- parseMultiplicative. -/
def parseMultiplicative : Nat → List Token → Nat →
    Except ParseErr (AstNode × Nat)
  | 0, _, _ => .error .fuelP
  | fuel + 1, toks, pos => do
    let (left, pos) ← parseUnary fuel toks pos
    parseMultiplicativeLoop fuel toks pos left
  termination_by structural f _ _ => f

/-- The while-loop of parseMultiplicative. -/
def parseMultiplicativeLoop : Nat → List Token → Nat → AstNode →
    Except ParseErr (AstNode × Nat)
  | 0, _, _, _ => .error .fuelP
  | fuel + 1, toks, pos, left =>
    if checkTok toks pos .STAR ∨ checkTok toks pos .SLASH ∨
        checkTok toks pos .PERCENT then do
      let op := (curTok toks pos).value
      let (right, pos2) ← parseUnary fuel toks (pos + 1)
      parseMultiplicativeLoop fuel toks pos2 (.binaryExpr op left right)
    else .ok (left, pos)
  termination_by structural f _ _ _ => f

/-- parseUnary. -/
def parseUnary : Nat → List Token → Nat →
    Except ParseErr (AstNode × Nat)
  | 0, _, _ => .error .fuelP
  | fuel + 1, toks, pos =>
    if checkTok toks pos .NOT ∨ checkTok toks pos .MINUS then do
      let op := (curTok toks pos).value
      let (operand, pos2) ← parseUnary fuel toks (pos + 1)
      return (.unaryExpr op operand, pos2)
    else parsePostfix fuel toks pos
  termination_by structural f _ _ => f

/-- parsePostfix. -/
def parsePostfix : Nat → List Token → Nat →
    Except ParseErr (AstNode × Nat)
  | 0, _, _ => .error .fuelP
  | fuel + 1, toks, pos => do
    let (expr, pos) ← parsePrimary fuel toks pos
    parsePostfixLoop fuel toks pos expr
  termination_by structural f _ _ => f

/-- The while-loop of parsePostfix (calls, member access, safe member
access, indexing, chained arbitrarily). -/
def parsePostfixLoop : Nat → List Token → Nat → AstNode →
    Except ParseErr (AstNode × Nat)
  | 0, _, _, _ => .error .fuelP
  | fuel + 1, toks, pos, expr =>
    if checkTok toks pos .LPAREN then do
      let pos := pos + 1
      if checkTok toks pos .RPAREN then
        parsePostfixLoop fuel toks (pos + 1) (.callExpr expr [])
      else do
        let (args, pos2) ← parseArgsLoop fuel toks pos []
        let (_, pos3) ← expectTok toks pos2 .RPAREN
          ("Expected \x27)\x27 after arguments")
        parsePostfixLoop fuel toks pos3 (.callExpr expr args)
    else if checkTok toks pos .DOT then do
      let (propTok, pos2) ← expectTok toks (pos + 1) .IDENTIFIER
        ("Expected property name")
      parsePostfixLoop fuel toks pos2 (.memberExpr expr propTok.value)
    else if checkTok toks pos .QUESTION_DOT then do
      let (propTok, pos2) ← expectTok toks (pos + 1) .IDENTIFIER
        ("Expected property name")
      parsePostfixLoop fuel toks pos2 (.safeMemberExpr expr propTok.value)
    else if checkTok toks pos .LBRACKET then do
      let (index, pos2) ← parseExpression fuel toks (pos + 1)
      let (_, pos3) ← expectTok toks pos2 .RBRACKET
        ("Expected \x27]\x27 after index")
      parsePostfixLoop fuel toks pos3 (.indexExpr expr index)
    else .ok (expr, pos)
  termination_by structural f _ _ _ => f

/-- The do-while argument loop of the call branch. -/
def parseArgsLoop : Nat → List Token → Nat → List AstNode →
    Except ParseErr (List AstNode × Nat)
  | 0, _, _, _ => .error .fuelP
  | fuel + 1, toks, pos, acc => do
    let (arg, pos2) ← parseExpression fuel toks pos
    if checkTok toks pos2 .COMMA then
      parseArgsLoop fuel toks (pos2 + 1) (acc ++ [arg])
    else .ok (acc ++ [arg], pos2)
  termination_by structural f _ _ _ => f

/-- parsePrimary. -/
def parsePrimary : Nat → List Token → Nat →
    Except ParseErr (AstNode × Nat)
  | 0, _, _ => .error .fuelP
  | fuel + 1, toks, pos =>
    if checkTok toks pos .NUMBER then
      .ok (.numberLit (parseNum (curTok toks pos).value), pos + 1)
    else if checkTok toks pos .STRING then
      .ok (.stringLit (curTok toks pos).value, pos + 1)
    else if checkTok toks pos .STRING_TEMPLATE then
      .ok (parseStringTemplateTok toks pos)
    else if checkTok toks pos .TRUE then .ok (.booleanLit true, pos + 1)
    else if checkTok toks pos .FALSE then .ok (.booleanLit false, pos + 1)
    else if checkTok toks pos .NULL then .ok (.nullLit, pos + 1)
    else if checkTok toks pos .IDENTIFIER then
      .ok (.identifier (curTok toks pos).value, pos + 1)
    else if checkTok toks pos .FN then
      parseFunctionLiteral fuel toks pos
    else if checkTok toks pos .LPAREN then do
      let (expr, pos2) ← parseExpression fuel toks (pos + 1)
      let (_, pos3) ← expectTok toks pos2 .RPAREN
        ("Expected \x27)\x27 after expression")
      return (expr, pos3)
    else if checkTok toks pos .LBRACKET then
      parseArrayLiteral fuel toks pos
    else if checkTok toks pos .LBRACE then
      parseObjectLiteral fuel toks pos
    else
      .error (.unexpectedToken (curTok toks pos).value
        (curTok toks pos).line)
  termination_by structural f _ _ => f

/-- parseArrayLiteral. -/
def parseArrayLiteral : Nat → List Token → Nat →
    Except ParseErr (AstNode × Nat)
  | 0, _, _ => .error .fuelP
  | fuel + 1, toks, pos => do
    let pos := pos + 1  -- consume left bracket
    if checkTok toks pos .RBRACKET then
      return (.arrayLit [], pos + 1)
    else do
      let (elems, pos2) ← parseElemsLoop fuel toks pos []
      let (_, pos3) ← expectTok toks pos2 .RBRACKET
        ("Expected \x27]\x27 after array elements")
      return (.arrayLit elems, pos3)
  termination_by structural f _ _ => f

/-- The do-while element loop of parseArrayLiteral. -/
def parseElemsLoop : Nat → List Token → Nat → List AstNode →
    Except ParseErr (List AstNode × Nat)
  | 0, _, _, _ => .error .fuelP
  | fuel + 1, toks, pos, acc => do
    let (elem, pos2) ← parseExpression fuel toks pos
    if checkTok toks pos2 .COMMA then
      parseElemsLoop fuel toks (pos2 + 1) (acc ++ [elem])
    else .ok (acc ++ [elem], pos2)
  termination_by structural f _ _ _ => f

/-- parseObjectLiteral (keys are bare identifiers). -/
def parseObjectLiteral : Nat → List Token → Nat →
    Except ParseErr (AstNode × Nat)
  | 0, _, _ => .error .fuelP
  | fuel + 1, toks, pos => do
    let pos := pos + 1  -- consume left brace
    if checkTok toks pos .RBRACE then
      return (.objectLit [], pos + 1)
    else do
      let (props, pos2) ← parsePropsLoop fuel toks pos []
      let (_, pos3) ← expectTok toks pos2 .RBRACE
        ("Expected \x27\x7d\x27 after object properties")
      return (.objectLit props, pos3)
  termination_by structural f _ _ => f

/-- The do-while property loop of parseObjectLiteral. -/
def parsePropsLoop : Nat → List Token → Nat →
    List (String × AstNode) →
    Except ParseErr (List (String × AstNode) × Nat)
  | 0, _, _, _ => .error .fuelP
  | fuel + 1, toks, pos, acc => do
    let (keyTok, pos2) ← expectTok toks pos .IDENTIFIER
      ("Expected property name")
    let (_, pos3) ← expectTok toks pos2 .COLON
      ("Expected \x27:\x27 after property name")
    let (value, pos4) ← parseExpression fuel toks pos3
    if checkTok toks pos4 .COMMA then
      parsePropsLoop fuel toks (pos4 + 1) (acc ++ [(keyTok.value, value)])
    else .ok (acc ++ [(keyTok.value, value)], pos4)
  termination_by structural f _ _ _ => f

/-- parseFunctionLiteral (the `FN` token type: the lexer keyword table
never produces it). -/
def parseFunctionLiteral : Nat → List Token → Nat →
    Except ParseErr (AstNode × Nat)
  | 0, _, _ => .error .fuelP
  | fuel + 1, toks, pos => do
    let pos := pos + 1  -- consume fn
    let (_, pos) ← expectTok toks pos .LPAREN
      ("Expected \x27(\x27 after \x27fn\x27")
    let (params, pos) ←
      if checkTok toks pos .RPAREN then Except.ok (([] : List String), pos)
      else parseParamsLoop fuel toks pos []
    let (_, pos) ← expectTok toks pos .RPAREN
      ("Expected \x27)\x27 after parameters")
    let (body, pos) ← parseBlockStatement fuel toks pos
    match body with
    | .blockStmt stmts => return (.functionLit params stmts, pos)
    | _ => return (.functionLit params [body], pos)
  termination_by structural f _ _ => f

/-- The do-while parameter loop of parseFunctionLiteral. -/
def parseParamsLoop : Nat → List Token → Nat → List String →
    Except ParseErr (List String × Nat)
  | 0, _, _, _ => .error .fuelP
  | fuel + 1, toks, pos, acc => do
    let (paramTok, pos2) ← expectTok toks pos .IDENTIFIER
      ("Expected parameter name")
    if checkTok toks pos2 .COMMA then
      parseParamsLoop fuel toks (pos2 + 1) (acc ++ [paramTok.value])
    else .ok (acc ++ [paramTok.value], pos2)
  termination_by structural f _ _ _ => f
end

/-- Parser.parse: the Program node. -/
def parseProgram (fuel : Nat) (toks : List Token) :
    Except ParseErr AstNode :=
  (parseProgramLoop fuel toks 0 []).map .program

/-- Fuel used for whole-source parses at the driver boundary; any bound
at least the source length plus one suffices for the recursion depth of
an honest parse. -/
def parseFuel (toks : List Token) : Nat := toks.length * 16 + 32

/-- The driver's lex-then-parse pipeline (`new Lexer(src).tokenize()`
followed by `new Parser(tokens).parse()`), with lexer and parser errors
kept apart. -/
def lexParse (source : String) : Except (LexErr ⊕ ParseErr) AstNode :=
  match tokenize source with
  | .error e => .error (.inl e)
  | .ok toks =>
    match parseProgram (parseFuel toks) toks with
    | .error e => .error (.inr e)
    | .ok ast => .ok ast

/-! ## Value-level helpers of interpreter.ts. -/

/-- isTruthy: null/undefined false, booleans as-is, numbers false iff
zero, strings false iff empty, everything else true. -/
def isTruthy : Value → Bool
  | .vnull => false
  | .vbool b => b
  | .vnum q => ¬ q = 0
  | .vstr s => ¬ s = ("")
  | _ => true

/-- The JS `Number(...)` coercion as used by the arithmetic and
relational operators.  Deviations (documented, exercised by no verified
scenario): numeric strings parse in JS, non-numeric coercions give NaN;
both are modelled as 0 here. -/
def toNumber : Value → ℚ
  | .vnum q => q
  | .vbool b => if b then 1 else 0
  | _ => 0

/-- Decimal rendering of a number by JS `String(...)`.  Integral values
render exactly as in JS; non-integral values (never rendered in any
verified scenario) are approximated as `num/den`. -/
def numToString (q : ℚ) : String :=
  if q.den = 1 then toString q.num
  else toString q.num ++ ("/") ++ toString q.den

mutual

/-- The JS `String(...)` conversion.  Arrays join their elements with
commas (Array.prototype.toString); plain objects and `FunctionValue`
instances render as `[object Object]`; a bare native function renders
its source text in JS, approximated by a constant. -/
def jsString : Value → String
  | .vnull => ("null")
  | .vbool b => if b then ("true") else ("false")
  | .vnum q => numToString q
  | .vstr s => s
  | .varr es => String.intercalate (",") (jsStringList es)
  | .vobj _ => ("[object Object]")
  | .vfunc _ _ _ => ("[object Object]")
  | .vnative _ => ("function")

/-- Element-wise rendering for `jsString` of arrays. -/
def jsStringList : List Value → List String
  | [] => []
  | v :: rest => jsString v :: jsStringList rest

end

mutual

/-- `JSON.stringify`, as far as the `stringify` helper of natives.ts
needs it.  String escaping and the serialization of class instances are
approximated (no verified scenario serializes them). -/
def jsonStr : Value → String
  | .vnull => ("null")
  | .vbool b => if b then ("true") else ("false")
  | .vnum q => numToString q
  | .vstr s => ("\"") ++ s ++ ("\"")
  | .varr es => ("[") ++ String.intercalate (",") (jsonStrList es) ++ ("]")
  | .vobj fs => ("\x7b") ++
      String.intercalate (",") (jsonStrFields fs) ++ ("\x7d")
  | .vfunc _ _ _ => ("\x7b\x7d")
  | .vnative _ => ("null")

/-- Element-wise `jsonStr`. -/
def jsonStrList : List Value → List String
  | [] => []
  | v :: rest => jsonStr v :: jsonStrList rest

/-- Field-wise `jsonStr`. -/
def jsonStrFields : List (String × Value) → List String
  | [] => []
  | (k, v) :: rest =>
      (("\"") ++ k ++ ("\":") ++ jsonStr v) :: jsonStrFields rest

end

/-- The `stringify` helper of natives.ts: null/undefined print as
`null`, objects (anything with JS typeof `object`) JSON-stringify,
everything else converts with `String(...)`. -/
def stringifyV : Value → String
  | .vnull => ("null")
  | .varr es => jsonStr (.varr es)
  | .vobj fs => jsonStr (.vobj fs)
  | .vfunc ps b c => jsonStr (.vfunc ps b c)
  | v => jsString v

/-- JS strict equality `===` on runtime values.  Primitives compare by
value; arrays, objects and functions compare by heap reference in JS,
which a pure embedding cannot observe — two composite operands are
modelled as unequal (no verified scenario compares composites). -/
def jsEq : Value → Value → Bool
  | .vnull, .vnull => true
  | .vbool a, .vbool b => a = b
  | .vnum a, .vnum b => a = b
  | .vstr a, .vstr b => a = b
  | _, _ => false

/-- JS `typeof`, as used in the for-loop type-error message. -/
def jsTypeof : Value → String
  | .vnull => ("object")
  | .vbool _ => ("boolean")
  | .vnum _ => ("number")
  | .vstr _ => ("string")
  | .varr _ => ("object")
  | .vobj _ => ("object")
  | .vfunc _ _ _ => ("object")
  | .vnative _ => ("function")

/-- Truncation toward zero, used for the `%` operator (JS `%` is
`fmod`). -/
def qtrunc (q : ℚ) : ℤ := if 0 ≤ q then ⌊q⌋ else ⌈q⌉

/-! ## The interpreter (from interpreter.ts). -/

/-- Interpreter errors: the quota condition (`LimitsExceededError`),
runtime errors carrying their message, and the artificial fuel
exhaustion of the embedding. -/
inductive EvalErr where
  | limits
  | rt (msg : String)
  | fuelE
  deriving Repr, DecidableEq

/-- The outcome of one evaluation step: a value, the out-of-band
`ReturnValue` control signal, or a thrown error. -/
inductive Res (α : Type) where
  | ok (a : α)
  | ret (v : Value)
  | err (e : EvalErr)

/-- The mutable fields of the Interpreter object that evaluation
touches: the variable map, the collected output lines and the operation
counter. -/
structure State where
  vars : Env
  output : List String
  opCount : Nat

/-- Immutable per-run configuration: the operation quota
(`maxOps`, 0 = unlimited) and the function registry (natives plus
registered custom functions; `Interpreter.registerFunction` only runs
before `run`).  The deadline field of the source is wall-clock based
and not modelled (assumed unset). -/
structure Config where
  quota : Nat
  funcs : String → Option (List Value → Value)

/-- Evaluation computations: state in, result and state out.  A thrown
JS exception leaves the interpreter object's fields as they were at the
throw point, which the threaded state captures. -/
def EvalM (α : Type) : Type := State → Res α × State

instance : Monad EvalM where
  pure a := fun σ => (.ok a, σ)
  bind m k := fun σ =>
    match m σ with
    | (.ok a, σ') => k a σ'
    | (.ret v, σ') => (.ret v, σ')
    | (.err e, σ') => (.err e, σ')

/-- Throw a runtime error. -/
def throwRt (msg : String) : EvalM Value := fun σ => (.err (.rt msg), σ)

/-- Throw the `ReturnValue` control signal. -/
def throwRet (v : Value) : EvalM Value := fun σ => (.ret v, σ)

/-- checkLimits: with a positive quota, increment the counter and fail
with the quota condition once it exceeds the quota; with quota 0 do
nothing.  (The deadline branch is wall-clock based and not modelled.) -/
def checkLimits (cfg : Config) : EvalM Unit := fun σ =>
  if 0 < cfg.quota then
    if cfg.quota < σ.opCount + 1 then
      (.err .limits, { σ with opCount := σ.opCount + 1 })
    else (.ok (), { σ with opCount := σ.opCount + 1 })
  else (.ok (), σ)

/-- evaluateBinaryExpr's operator switch, applied to the two evaluated
operands. -/
def applyBinary (op : String) (l r : Value) : EvalM Value :=
  if op = ("+") then
    match l, r with
    | .vstr _, _ | _, .vstr _ =>
      let ls := match l with | .vnull => ("") | v => jsString v
      let rs := match r with | .vnull => ("") | v => jsString v
      pure (.vstr (ls ++ rs))
    | _, _ => pure (.vnum (toNumber l + toNumber r))
  else if op = ("-") then pure (.vnum (toNumber l - toNumber r))
  else if op = ("*") then pure (.vnum (toNumber l * toNumber r))
  else if op = ("/") then pure (.vnum (toNumber l / toNumber r))
  else if op = ("%") then
    pure (.vnum (toNumber l - toNumber r * (qtrunc (toNumber l / toNumber r) : ℚ)))
  else if op = ("==") then pure (.vbool (jsEq l r))
  else if op = ("!=") then pure (.vbool (¬ jsEq l r))
  else if op = ("<") then pure (.vbool (toNumber l < toNumber r))
  else if op = ("<=") then pure (.vbool (toNumber l ≤ toNumber r))
  else if op = (">") then pure (.vbool (toNumber r < toNumber l))
  else if op = (">=") then pure (.vbool (toNumber r ≤ toNumber l))
  else if op = ("&&") ∨ op = ("and") then
    pure (.vbool (isTruthy l ∧ isTruthy r))
  else if op = ("||") ∨ op = ("or") then
    pure (.vbool (isTruthy l ∨ isTruthy r))
  else throwRt (("Unknown operator: ") ++ op)

/-- evaluateUnaryExpr's operator switch. -/
def applyUnary (op : String) (v : Value) : EvalM Value :=
  if op = ("-") then pure (.vnum (- toNumber v))
  else if op = ("!") ∨ op = ("not") then pure (.vbool (¬ isTruthy v))
  else throwRt (("Unknown unary operator: ") ++ op)

/-- evaluateIdentifier: variable map first, then the function registry,
then null. -/
def evalIdent (cfg : Config) (name : String) : EvalM Value := fun σ =>
  match σ.vars name with
  | some v => (.ok v, σ)
  | none =>
    match cfg.funcs name with
    | some _ => (.ok (.vnative name), σ)
    | none => (.ok .vnull, σ)

/-- Raw JS property read `(obj as Record)[prop] ?? null` on a runtime
value, used by safe member access and by the dynamic branch of member
access.  Beyond own fields, only the `length` property of arrays and
strings is modelled (other Array/String prototype members are not
reached by any verified scenario). -/
def rawProp (v : Value) (prop : String) : Value :=
  match v with
  | .vobj fields => (fields.lookup prop).getD .vnull
  | .varr es => if prop = ("length") then .vnum es.length else .vnull
  | .vstr s => if prop = ("length") then .vnum s.length else .vnull
  | _ => .vnull

/-- JS object-literal field assignment `obj[key] = v`: replace an
existing key in place or append. -/
def listUpsert : List (String × Value) → String → Value →
    List (String × Value)
  | [], key, v => [(key, v)]
  | (k, w) :: rest, key, v =>
    if k = key then (k, v) :: rest
    else (k, w) :: listUpsert rest key v

/-- Merging the captured closure into the live variable map:
`fn.closure.forEach((value, key) => this.variables.set(key, value))` —
captured bindings overwrite same-named live bindings. -/
def mergeEnv (vars closure : Env) : Env :=
  fun k => (closure k).orElse (fun _ => vars k)

/-- The parameter-binding loop
(`for i: variables.set(parameters[i], args[i] ?? null)`) starting at
index `i`. -/
def bindParamsFrom (e : Env) : List String → List Value → Nat → Env
  | [], _, _ => e
  | p :: rest, args, i =>
    bindParamsFrom (e.set p (args.getD i .vnull)) rest args (i + 1)

/-- Positional parameter binding:
`variables.set(parameters[i], args[i] ?? null)` for each `i`; missing
trailing arguments bind to null. -/
def bindParams (e : Env) (params : List String) (args : List Value) :
    Env :=
  bindParamsFrom e params args 0

/-- The `${`-scan of evaluateStringTemplate: consume characters while
tracking brace depth; on the matching close return (enclosed text,
remaining text).  An unterminated interpolation mirrors the source
index arithmetic (the final character is dropped from the enclosed
text). -/
def braceSplit : Nat → List Char → List Char × List Char
  | _, [] => ([], [])
  | depth, c :: rest =>
    let depth' :=
      if c = ('\x7b') then depth + 1
      else if c = ('\x7d') then depth - 1
      else depth
    if depth' = 0 then ([], rest)
    else
      match rest with
      | [] => ([], [])
      | _ =>
        let (e, r) := braceSplit depth' rest
        (c :: e, r)

/-- The names special-cased as higher-order array natives. -/
def hoNames : List String :=
  [("map"), ("filter"), ("reduce"), ("find"), ("findIndex")]

/-- The guard of the higher-order special case: first argument an
array, second a `FunctionValue`. -/
def isArrFnPair : Value → Value → Bool
  | .varr _, .vfunc _ _ _ => true
  | _, _ => false

/-- The per-element callback application order of the higher-order
natives: `(element, index)`. -/
def cbArgs (item : Value) (i : Nat) : List Value := [item, .vnum i]

/-! The evaluator.  Helper loops take the one-step evaluator for the
next fuel level as an explicit argument `ev` (in the source they are
recursive calls of `this.evaluate`); they are structurally recursive on
their lists, and `evaluate` itself is structural on fuel. -/

/-- Left-to-right evaluation of a node list (call arguments, array
elements). -/
def evalListWith (ev : AstNode → EvalM Value) :
    List AstNode → EvalM (List Value)
  | [] => pure []
  | n :: rest => do
    let v ← ev n
    let vs ← evalListWith ev rest
    pure (v :: vs)

/-- Statement-sequence evaluation carrying the running result value
(used by `run`, by Program/Block nodes and by function bodies). -/
def evalStmtsWith (ev : AstNode → EvalM Value) :
    List AstNode → Value → EvalM Value
  | [], acc => pure acc
  | s :: rest, _ => do
    let v ← ev s
    evalStmtsWith ev rest v

/-- Object-literal evaluation in property order. -/
def evalObjWith (ev : AstNode → EvalM Value) :
    List (String × AstNode) → List (String × Value) →
    EvalM (List (String × Value))
  | [], acc => pure acc
  | (k, n) :: rest, acc => do
    let v ← ev n
    evalObjWith ev rest (listUpsert acc k v)

/-- applyFunction: snapshot the live variable map, merge the captured
closure over it, bind parameters positionally, evaluate the body
statements in order, convert a `ReturnValue` into the call's result and
restore the snapshot unconditionally (the source's `finally`). -/
def applyFunctionWith (ev : AstNode → EvalM Value) (params : List String)
    (body : List AstNode) (closure : Env) (args : List Value) :
    EvalM Value := fun σ =>
  let prev := σ.vars
  match evalStmtsWith ev body .vnull
      { σ with vars := bindParams (mergeEnv σ.vars closure) params args } with
  | (.ok v, σ') => (.ok v, { σ' with vars := prev })
  | (.ret v, σ') => (.ok v, { σ' with vars := prev })
  | (.err e, σ') => (.err e, { σ' with vars := prev })

/-- `arr.map((item, index) => ...)` with the function-value callback. -/
def hoMapLoop (app : List Value → EvalM Value) :
    List Value → Nat → EvalM (List Value)
  | [], _ => pure []
  | item :: rest, i => do
    let v ← app (cbArgs item i)
    let vs ← hoMapLoop app rest (i + 1)
    pure (v :: vs)

/-- `arr.filter(...)` keeping elements whose callback result is
truthy. -/
def hoFilterLoop (app : List Value → EvalM Value) :
    List Value → Nat → EvalM (List Value)
  | [], _ => pure []
  | item :: rest, i => do
    let v ← app (cbArgs item i)
    let vs ← hoFilterLoop app rest (i + 1)
    if isTruthy v then pure (item :: vs) else pure vs

/-- `arr.reduce((acc, item, index) => ...)`. -/
def hoReduceLoop (app : List Value → EvalM Value) :
    List Value → Nat → Value → EvalM Value
  | [], _, acc => pure acc
  | item :: rest, i, acc => do
    let v ← app ([acc, item, .vnum i])
    hoReduceLoop app rest (i + 1) v

/-- `arr.find(...) ?? null`. -/
def hoFindLoop (app : List Value → EvalM Value) :
    List Value → Nat → EvalM Value
  | [], _ => pure .vnull
  | item :: rest, i => do
    let v ← app (cbArgs item i)
    if isTruthy v then pure item else hoFindLoop app rest (i + 1)

/-- `arr.findIndex(...)` (−1 when nothing matches). -/
def hoFindIdxLoop (app : List Value → EvalM Value) :
    List Value → Nat → EvalM Value
  | [], _ => pure (.vnum (-1))
  | item :: rest, i => do
    let v ← app (cbArgs item i)
    if isTruthy v then pure (.vnum i) else hoFindIdxLoop app rest (i + 1)

/-- The iteration loop of evaluateForStatement: bind the loop variable
into the shared map for each element and evaluate the body's statements
(the source calls `evaluateBlockStatement` directly, so the block node
itself is not counted). -/
def forLoopWith (ev : AstNode → EvalM Value) (name : String)
    (body : List AstNode) : List Value → Value → EvalM Value
  | [], acc => pure acc
  | item :: rest, _ => fun σ =>
    match evalStmtsWith ev body .vnull
        { σ with vars := σ.vars.set name item } with
    | (.ok v, σ') => forLoopWith ev name body rest v σ'
    | (.ret v, σ') => (.ret v, σ')
    | (.err e, σ') => (.err e, σ')

/-- evaluateStringTemplate's scan over the raw text: copy characters
verbatim; on `${`, find the matching close brace-depth-aware, re-lex
and re-parse the enclosed text as a standalone expression, evaluate it
in the current environment (via `ev`), and append its rendering (null
renders as the text `null`).  `charFuel` bounds the scan (each step
consumes input; the initial call supplies the text length plus one). -/
def templLoopWith (ev : AstNode → EvalM Value) :
    Nat → List Char → String → EvalM Value
  | 0, _, _ => fun σ => (.err .fuelE, σ)
  | _ + 1, [], acc => pure (.vstr acc)
  | charFuel + 1, c :: rest, acc =>
    if c = ('$') ∧ rest.headD (' ') = ('\x7b') then
      let (exprChars, rest2) := braceSplit 1 rest.tail
      match tokenize (String.mk exprChars) with
      | .error e => throwRt (lexMsg e)
      | .ok toks =>
        match parseExpression (parseFuel toks) toks 0 with
        | .error e => throwRt (parseMsg e)
        | .ok (expr, _) => do
          let v ← ev expr
          let piece := match v with
            | .vnull => ("null")
            | w => jsString w
          templLoopWith ev charFuel rest2 (acc ++ piece)
    else templLoopWith ev charFuel rest (acc.push c)

/-- evaluate: the single recursive dispatch over the node tag.  Every
call first performs the limit check.  `fuel` bounds the recursion
depth of the embedding (the source recursion is unbounded). -/
def evaluate (cfg : Config) : Nat → AstNode → EvalM Value
  | 0, _ => fun σ => (.err .fuelE, σ)
  | fuel + 1, node => do
    checkLimits cfg
    match node with
    | .program stmts =>
      evalStmtsWith (fun n => evaluate cfg fuel n) stmts .vnull
    | .numberLit v => pure (.vnum v)
    | .stringLit v => pure (.vstr v)
    | .stringTemplate parts =>
      -- the parser stores the raw template string in parts[0]
      match parts with
      | .stringLit raw :: _ =>
        templLoopWith (fun n => evaluate cfg fuel n)
          (raw.toList.length + 1) raw.toList ("")
      | _ => throwRt ("template node malformed")
    | .booleanLit b => pure (.vbool b)
    | .nullLit => pure .vnull
    | .identifier name => evalIdent cfg name
    | .binaryExpr op l r => do
      let lv ← evaluate cfg fuel l
      let rv ← evaluate cfg fuel r
      applyBinary op lv rv
    | .unaryExpr op x => do
      let v ← evaluate cfg fuel x
      applyUnary op v
    | .callExpr callee argNodes => do
      let args ← evalListWith (fun n => evaluate cfg fuel n) argNodes
      let calleeName : Option String :=
        match callee with
        | .identifier n => some n
        | _ => none
      match calleeName with
      | some name =>
        -- higher-order array natives with FunctionValue callbacks
        if hoNames.contains name ∧
            isArrFnPair (args.getD 0 .vnull) (args.getD 1 .vnull) then
          match args.getD 0 .vnull, args.getD 1 .vnull with
          | .varr arr, .vfunc ps body cl =>
            let app := fun (as : List Value) =>
              applyFunctionWith (fun n => evaluate cfg fuel n) ps body cl as
            if name = ("map") then do
              let vs ← hoMapLoop app arr 0
              pure (.varr vs)
            else if name = ("filter") then do
              let vs ← hoFilterLoop app arr 0
              pure (.varr vs)
            else if name = ("reduce") then
              hoReduceLoop app arr 0 (args.getD 2 .vnull)
            else if name = ("find") then
              hoFindLoop app arr 0
            else hoFindIdxLoop app arr 0
          | _, _ => throwRt ("unreachable")
        else
          match cfg.funcs name with
          | some f =>
            let result := f args
            if name = ("print") then fun σ =>
              (.ok .vnull,
                { σ with output := σ.output ++ [jsString result] })
            else pure result
          | none => do
            let calleeV ← evaluate cfg fuel callee
            match calleeV with
            | .vfunc ps body cl =>
              applyFunctionWith (fun n => evaluate cfg fuel n) ps body cl
                args
            | .vnative n =>
              match cfg.funcs n with
              | some f => pure (f args)
              | none => throwRt (name ++ (" is not a function"))
            | _ => throwRt (name ++ (" is not a function"))
      | none => do
        let calleeV ← evaluate cfg fuel callee
        match calleeV with
        | .vfunc ps body cl =>
          applyFunctionWith (fun n => evaluate cfg fuel n) ps body cl args
        | .vnative n =>
          match cfg.funcs n with
          | some f => pure (f args)
          | none => throwRt ("value is not a function")
        | _ => throwRt ("value is not a function")
    | .memberExpr objNode prop => do
      let obj ← evaluate cfg fuel objNode
      match obj with
      | .vnull =>
        throwRt (("Cannot read property \x27") ++ prop ++
          ("\x27 of null"))
      | .vobj fields =>
        -- the plain-object branch: named field or null if absent
        pure ((fields.lookup prop).getD .vnull)
      | v =>
        -- dynamic access for non-plain values; the bound-callable case
        -- (host object methods) is outside this embedding
        pure (rawProp v prop)
    | .safeMemberExpr objNode prop => do
      let obj ← evaluate cfg fuel objNode
      match obj with
      | .vnull => pure .vnull
      | v => pure (rawProp v prop)
    | .elvisExpr l r => do
      let lv ← evaluate cfg fuel l
      match lv with
      | .vnull => evaluate cfg fuel r
      | v => pure v
    | .arrayLit elems => do
      let vs ← evalListWith (fun n => evaluate cfg fuel n) elems
      pure (.varr vs)
    | .objectLit props => do
      let fs ← evalObjWith (fun n => evaluate cfg fuel n) props []
      pure (.vobj fs)
    | .indexExpr objNode idxNode => do
      let obj ← evaluate cfg fuel objNode
      let idx ← evaluate cfg fuel idxNode
      match obj with
      | .varr es =>
        let n := toNumber idx
        if n.den = 1 ∧ 0 ≤ n.num ∧ n.num < es.length then
          pure (es.getD n.num.toNat .vnull)
        else pure .vnull
      | .vobj fields => pure ((fields.lookup (jsString idx)).getD .vnull)
      | _ => pure .vnull
    | .functionLit ps body => fun σ =>
      -- createFunctionValue: the closure is a copy of the variable map
      (.ok (.vfunc ps body σ.vars), σ)
    | .letStmt name vNode => do
      let v ← evaluate cfg fuel vNode
      fun σ => (.ok v, { σ with vars := σ.vars.set name v })
    | .assignStmt name vNode => do
      let v ← evaluate cfg fuel vNode
      fun σ =>
        match σ.vars name with
        | none =>
          (.err (.rt (("Variable \x27") ++ name ++
            ("\x27 not defined"))), σ)
        | some _ => (.ok v, { σ with vars := σ.vars.set name v })
    | .ifStmt cond thenB elseB => do
      let c ← evaluate cfg fuel cond
      if isTruthy c then evaluate cfg fuel thenB
      else
        match elseB with
        | some b => evaluate cfg fuel b
        | none => pure .vnull
    | .forStmt name iterNode body => do
      let iterable ← evaluate cfg fuel iterNode
      match iterable with
      | .varr items => fun σ =>
        let prev := σ.vars name
        let restore := fun (e : Env) =>
          match prev with
          | none => e.del name
          | some v => e.set name v
        match (forLoopWith (fun n => evaluate cfg fuel n) name body
            items Value.vnull) σ with
        | (.ok v, σ') => (.ok v, { σ' with vars := restore σ'.vars })
        | (.ret v, σ') => (.ret v, { σ' with vars := restore σ'.vars })
        | (.err e, σ') => (.err e, { σ' with vars := restore σ'.vars })
      | v =>
        throwRt (("for loop expects an array, got ") ++ jsTypeof v)
    | .whileStmt _ _ =>
      -- ast.ts declares WhileStatement but the interpreter has no case
      -- for it: the default branch throws
      throwRt ("Unknown node type: WhileStatement")
    | .returnStmt vNode =>
      match vNode with
      | some x => do
        let v ← evaluate cfg fuel x
        throwRet v
      | none => throwRet .vnull
    | .blockStmt stmts =>
      evalStmtsWith (fun n => evaluate cfg fuel n) stmts .vnull
    | .exprStmt e => evaluate cfg fuel e
  termination_by structural f _ => f

/-- Interpreter.run: reset the output, evaluate the program statements
in order, catch the `ReturnValue` signal as the final result; all other
exceptions propagate. -/
def runP (cfg : Config) (fuel : Nat) (stmts : List AstNode) :
    EvalM Value := fun σ =>
  match evalStmtsWith (fun n => evaluate cfg fuel n) stmts .vnull
      { σ with output := [] } with
  | (.ok v, σ') => (.ok v, σ')
  | (.ret v, σ') => (.ok v, σ')
  | (.err e, σ') => (.err e, σ')

/-! ## Native function registry (from natives.ts).

The spec treats the native catalog as an external collaborator: the
core only relies on a lookup-by-name, variadic-call contract.  The
embedding registers the exact name set of `createNatives` (so registry
membership matches the source) and gives faithful implementations to
the natives exercised by theorems below; the remaining entries
(math/crypto/random/encoding helpers, some of which are impure or
float-valued) are modelled as returning null, and no theorem evaluates
them. -/

/-- The names registered by createNatives, in source order. -/
def nativeNames : List String :=
  [ ("print"), ("toString"), ("toNumber"), ("length"), ("substring"),
    ("toUpperCase"), ("toLowerCase"), ("trim"), ("replace"), ("split"),
    ("join"), ("contains"), ("startsWith"), ("endsWith"), ("indexOf"),
    ("abs"), ("floor"), ("ceil"), ("round"), ("min"), ("max"), ("pow"),
    ("sqrt"), ("sin"), ("cos"), ("tan"), ("log"), ("log10"), ("exp"),
    ("random"), ("randomInt"), ("randomUUID"),
    ("jsonParse"), ("jsonStringify"),
    ("base64Encode"), ("base64Decode"), ("urlEncode"), ("urlDecode"),
    ("size"), ("first"), ("last"), ("slice"), ("reverse"), ("sort"),
    ("sortBy"),
    ("typeOf"), ("isNull"), ("isNumber"), ("isString"), ("isBool"),
    ("md5"), ("sha1"), ("sha256") ]

/-- Implementations of the natives that theorems below exercise
(faithful to natives.ts); every other registered name returns null
(see the section comment). -/
def nativeImpl (name : String) (args : List Value) : Value :=
  if name = ("print") then
    .vstr (String.intercalate (" ") ((args.map stringifyV)))
  else if name = ("toString") then .vstr (stringifyV (args.getD 0 .vnull))
  else if name = ("length") then
    .vnum (jsString (args.getD 0 .vnull)).length
  else if name = ("size") then
    match args.getD 0 .vnull with
    | .varr es => .vnum es.length
    | _ => .vnum 0
  else if name = ("first") then
    match args.getD 0 .vnull with
    | .varr (v :: _) => v
    | _ => .vnull
  else if name = ("last") then
    match args.getD 0 .vnull with
    | .varr es => (es.getLast?).getD .vnull
    | _ => .vnull
  else if name = ("toUpperCase") then
    .vstr (jsString (args.getD 0 .vnull)).toUpper
  else if name = ("toLowerCase") then
    .vstr (jsString (args.getD 0 .vnull)).toLower
  else if name = ("isNull") then
    match args.getD 0 .vnull with
    | .vnull => .vbool true
    | _ => .vbool false
  else if name = ("isNumber") then
    match args.getD 0 .vnull with
    | .vnum _ => .vbool true
    | _ => .vbool false
  else if name = ("isString") then
    match args.getD 0 .vnull with
    | .vstr _ => .vbool true
    | _ => .vbool false
  else if name = ("isBool") then
    match args.getD 0 .vnull with
    | .vbool _ => .vbool true
    | _ => .vbool false
  else if name = ("typeOf") then
    match args.getD 0 .vnull with
    | .vnull => .vstr ("null")
    | .varr _ => .vstr ("array")
    | v => .vstr (jsTypeof v)
  else if name = ("jsonStringify") then .vstr (jsonStr (args.getD 0 .vnull))
  else .vnull

/-- The registry loaded by the Interpreter constructor. -/
def defaultFuncs : String → Option (List Value → Value) := fun name =>
  if nativeNames.contains name then some (nativeImpl name) else none

/-! ## Program cache (from `src/src/cache.ts`). -/

/-- simpleHash (djb2 xor variant) under JS 32-bit semantics: the update
`hash = ((hash << 5) + hash) ^ charCode` funnels every intermediate
through ToInt32, which on the unsigned representative is multiplication
by 33 modulo 2^32 followed by xor.  The source finally renders
`hash >>> 0` as zero-padded hex — an injective renaming of the same
number, so the key is kept as the natural number itself.  Characters
beyond the basic multilingual plane occupy two UTF-16 units in JS and
one `Char` here; no verified scenario hashes such characters. -/
def simpleHash (s : String) : Nat :=
  s.toList.foldl
    (fun h c => ((h * 33) % 4294967296) ^^^ (c.toNat % 4294967296)) 5381

/-- interface CacheEntry. -/
structure CacheEntry where
  key : Nat
  source : String
  program : AstNode

/-- class ASTCache.  The JS `Map` iterates in insertion order; it is
modelled as an association list whose head is the oldest entry (`keys().
next()`), appending on insert.  In every state reachable by the class's
own operations each key occurs at most once; deletion removes every
occurrence, which coincides with `Map.delete` on such states. -/
structure ASTCache where
  capacity : Nat
  entries : List (Nat × CacheEntry)

/-- `new ASTCache(capacity)`. -/
def ASTCache.mk0 (capacity : Nat := 1000) : ASTCache :=
  { capacity := capacity, entries := [] }

/-- ASTCache.get: hash the source, look the key up, verify the stored
source byte-for-byte (collision detection: a mismatch is a miss), and
bump the hit entry to most-recently-used position (the source deletes
and re-inserts the entry). -/
def ASTCache.get (c : ASTCache) (source : String) :
    Option AstNode × ASTCache :=
  match c.entries.lookup (simpleHash source) with
  | none => (none, c)
  | some e =>
    if e.source = source then
      (some e.program,
        { c with entries :=
            (c.entries.filter (fun p => ¬ p.1 = simpleHash source)) ++
              [(simpleHash source, e)] })
    else (none, c)

/-- The capacity check of ASTCache.set: evict the single oldest entry
(the first in insertion order) when the size is still at capacity after
the same-key delete. -/
def evictIfFull (cap : Nat) (l : List (Nat × CacheEntry)) :
    List (Nat × CacheEntry) :=
  if cap ≤ l.length then l.tail else l

/-- ASTCache.set: delete any entry under the same key, evict the single
oldest entry if at capacity, then insert at most-recently-used
position. -/
def ASTCache.set (c : ASTCache) (source : String) (program : AstNode) :
    ASTCache :=
  { c with entries :=
      (evictIfFull c.capacity
          (c.entries.filter (fun p => ¬ p.1 = simpleHash source)) ++
        [(simpleHash source,
          { key := simpleHash source, source := source,
            program := program })]) }

/-! ## The execution boundary (KodiScriptBuilder.execute, index.ts). -/

/-- The ScriptResult shape: collected output lines, final value, error
messages. -/
structure ScriptResult where
  output : List String
  value : Value
  errors : List String

/-- The message of an interpreter error as observed by the `catch` in
execute (`e.message`). -/
def evalErrMsg : EvalErr → String
  | .limits => ("max operations exceeded")
  | .rt msg => msg
  | .fuelE => ("fuel exhausted")

/-- The message of a lexer or parser error escaping the resolve step. -/
def lexParseMsg : LexErr ⊕ ParseErr → String
  | .inl e => lexMsg e
  | .inr e => parseMsg e

/-- The builder configuration that execute consumes: injected
variables, registered custom functions (which override same-named
natives in the registry, as `Map.set` does), the cache toggle, and the
operation quota.  The timeout is wall-clock based and not modelled. -/
structure BuilderCfg where
  vars : Env
  userFuncs : String → Option (List Value → Value)
  useCache : Bool
  maxOps : Nat

/-- The effective function registry of the Interpreter after the
builder registers its custom functions over the natives. -/
def regOf (b : BuilderCfg) : String → Option (List Value → Value) :=
  fun name => (b.userFuncs name).orElse (fun _ => defaultFuncs name)

/-- KodiScriptBuilder.execute: resolve the AST from the cache or by
lexing and parsing (caching the fresh parse), run the interpreter, and
convert the outcome to a ScriptResult.  Crucially, only
`interpreter.run` sits inside the try/catch: an interpreter error is
converted to `{ output: [], value: null, errors: [message] }`, while a
lexer or parser error propagates out of execute as a raised exception
(the `Except.error` branch).  The shared cache is threaded in and out
explicitly. -/
def execute (b : BuilderCfg) (source : String) (cache : ASTCache)
    (fuel : Nat) : Except String ScriptResult × ASTCache :=
  let resolved : Except String (AstNode × ASTCache) :=
    if b.useCache then
      match cache.get source with
      | (some ast, cache') => .ok (ast, cache')
      | (none, cache') =>
        match lexParse source with
        | .error e => .error (lexParseMsg e)
        | .ok ast => .ok (ast, cache'.set source ast)
    else
      match lexParse source with
      | .error e => .error (lexParseMsg e)
      | .ok ast => .ok (ast, cache)
  match resolved with
  | .error msg => (.error msg, cache)
  | .ok (ast, cache') =>
    let stmts :=
      match ast with
      | .program s => s
      | other => [other]
    let cfg : Config := { quota := b.maxOps, funcs := regOf b }
    match runP cfg fuel stmts { vars := b.vars, output := [], opCount := 0 } with
    | (.ok v, σ') => (.ok { output := σ'.output, value := v, errors := [] }, cache')
    | (.ret v, σ') => (.ok { output := σ'.output, value := v, errors := [] }, cache')
    | (.err e, _) =>
      (.ok { output := [], value := .vnull, errors := [evalErrMsg e] }, cache')

/-! ## Predicates and scenario programs used by the verification. -/

/-- Lockstep simulation between two quota instantiations of the same
computation (`c q` is the computation run under quota `q`, with the
registry and everything else fixed).  If the `M`-quota run produces a
result other than the quota error, then: the operation counter never
decreases; when its final value fits under `N` the `N`-quota run is
identical; and when it exceeds `N` (starting from a counter within
`N`), the `N`-quota run fails with the quota error. -/
def SimQ (N M : Nat) {α : Type} (c : Nat → EvalM α) : Prop :=
  ∀ σ r σM, c M σ = (r, σM) → r ≠ Res.err .limits →
    σ.opCount ≤ σM.opCount ∧
    (σM.opCount ≤ N → c N σ = (r, σM)) ∧
    (N < σM.opCount → σ.opCount ≤ N →
      ∃ σ', c N σ = (Res.err .limits, σ'))

/-- A computation that never raises the quota error (the quota-0
"unlimited" behaviour). -/
def NoLim {α : Type} (m : EvalM α) : Prop :=
  ∀ σ, (m σ).1 ≠ Res.err .limits

/-- The closure-capture scenario of the spec: bind `x`, create a
function literal reading `x`, mutate `x`, create a second literal, and
finally invoke `callee`. -/
def captureProg (a b : ℚ) (callee : String) : List AstNode :=
  [ .letStmt ("x") (.numberLit a),
    .letStmt ("f") (.functionLit [] [.exprStmt (.identifier ("x"))]),
    .assignStmt ("x") (.numberLit b),
    .letStmt ("g") (.functionLit [] [.exprStmt (.identifier ("x"))]),
    .exprStmt (.callExpr (.identifier callee) []) ]

/-- The state reached after the first four statements of
`captureProg` (both closures created). -/
def captureState (a b : ℚ) (vars : Env) : State :=
  (evalStmtsWith (fun n => evaluate { quota := 0, funcs := defaultFuncs } 20 n)
    ((captureProg a b ("f")).take 4) .vnull
    { vars := vars, output := [], opCount := 0 }).2

/-- A builder configuration with no injected variables, no custom
functions, the cache bypassed and no quota. -/
def plainCfg : BuilderCfg :=
  { vars := Env.empty, userFuncs := fun _ => none, useCache := false,
    maxOps := 0 }

/-! ## Theorems. -/

/-- Unfolding of the monadic bind of `EvalM`. -/
theorem bind_apply {α β : Type} (m : EvalM α) (k : α → EvalM β)
    (σ : State) :
    (m >>= k) σ =
      match m σ with
      | (.ok a, σ') => k a σ'
      | (.ret v, σ') => (.ret v, σ')
      | (.err e, σ') => (.err e, σ') := rfl

/-- Unfolding of pure. -/
theorem pure_apply {α : Type} (a : α) (σ : State) :
    (pure a : EvalM α) σ = (.ok a, σ) := rfl

/-- Association-list lookup over an append whose left part avoids the
key. -/
theorem lookup_append_of_forall_ne {α β : Type} [DecidableEq α]
    (l : List (α × β)) (k : α) (v : β)
    (h : ∀ p ∈ l, ¬ p.1 = k) :
    (l ++ [(k, v)]).lookup k = some v := by
  induction l with
  | nil => simp [List.lookup]
  | cons p rest ih =>
    have hp := h p (List.mem_cons_self p rest)
    have hne : ¬ k = p.1 := fun he => hp he.symm
    have hbeq : (k == p.1) = false := beq_eq_false_iff_ne.mpr hne
    simp only [List.cons_append, List.lookup, hbeq]
    exact ih (fun q hq => h q (List.mem_cons_of_mem p hq))

/-- A successful association-list lookup exhibits a member. -/
theorem mem_of_lookup_eq_some {α β : Type} [DecidableEq α]
    {l : List (α × β)} {k : α} {v : β}
    (h : l.lookup k = some v) : (k, v) ∈ l := by
  induction l with
  | nil => simp [List.lookup] at h
  | cons p rest ih =>
    by_cases hk : k = p.1
    · have hbeq : (k == p.1) = true := beq_iff_eq.mpr hk
      simp only [List.lookup, hbeq] at h
      have hv : v = p.2 := by
        injection h with h'
        exact h'.symm
      subst hv
      subst hk
      exact List.mem_cons_self _ _
    · have hbeq : (k == p.1) = false := beq_eq_false_iff_ne.mpr hk
      simp only [List.lookup, hbeq] at h
      exact List.mem_cons_of_mem p (ih h)

/-- Entries surviving the key-filter of `ASTCache.set` avoid the
key. -/
theorem filter_forall_ne {α β : Type} [DecidableEq α]
    (l : List (α × β)) (k : α) :
    ∀ p ∈ l.filter (fun p => ¬ p.1 = k), ¬ p.1 = k := by
  intro p hp
  have := List.of_mem_filter hp
  simpa using this

/-- C2: the claim states that `fn`, `for` and `in` lex as generic
identifier tokens and that the parser nevertheless recognizes the
constructs by matching the identifiers' literal text, so lexing plus
parsing yields the ForStatement/FunctionLiteral rather than a parse
failure.  The lexing half is true (the KEYWORDS table omits all three
spellings), but the parser half is not: parser.ts matches the dedicated
token kinds `FOR`/`FN`/`IN`, which the lexer never emits.
Consequently a for-loop — as used throughout the repository's own
tests — fails to parse with "Expected ')' after arguments", and a
function literal parses as a call of the identifier `fn` followed by a
stray block, not as a FunctionLiteral node.  This theorem evaluates the
embedded pipeline at those failing inputs. -/
theorem c2_reserved_words_code_bug :
    (KEYWORDS.lookup ("fn") = none ∧ KEYWORDS.lookup ("for") = none ∧
      KEYWORDS.lookup ("in") = none) ∧
    tokenize ("for (x in [1]) \x7b x \x7d") = .ok
      [ createToken .IDENTIFIER ("for") 1 1,
        createToken .LPAREN ("(") 1 5,
        createToken .IDENTIFIER ("x") 1 6,
        createToken .IDENTIFIER ("in") 1 8,
        createToken .LBRACKET ("[") 1 11,
        createToken .NUMBER ("1") 1 12,
        createToken .RBRACKET ("]") 1 13,
        createToken .RPAREN (")") 1 14,
        createToken .LBRACE ("\x7b") 1 16,
        createToken .IDENTIFIER ("x") 1 18,
        createToken .RBRACE ("\x7d") 1 20,
        createToken .EOF ("") 1 21 ] ∧
    lexParse ("for (x in [1]) \x7b x \x7d") =
      .error (.inr (.expected ("Expected \x27)\x27 after arguments") 1)) ∧
    lexParse ("let f = fn(x) \x7b x \x7d") = .ok
      (.program
        [ .letStmt ("f")
            (.callExpr (.identifier ("fn")) [.identifier ("x")]),
          .blockStmt [.exprStmt (.identifier ("x"))] ]) := by
  refine ⟨⟨rfl, rfl, rfl⟩, rfl, rfl, rfl⟩

/-- C7: `get` immediately after `set S P` returns `P`; `get S` only
ever returns the program of an entry whose stored source text is
exactly `S`; and a hash hit whose stored source differs from the lookup
source (a collision) is a miss, not an error and not the wrong AST. -/
theorem c7_cache_correctness :
    (∀ (c : ASTCache) (S : String) (P : AstNode),
      ((c.set S P).get S).1 = some P) ∧
    (∀ (c : ASTCache) (S : String) (Q : AstNode),
      (c.get S).1 = some Q →
      ∃ p ∈ c.entries, p.2.source = S ∧ p.2.program = Q) ∧
    (∀ (c : ASTCache) (S : String) (e : CacheEntry),
      c.entries.lookup (simpleHash S) = some e → ¬ e.source = S →
      (c.get S).1 = none) := by
  refine ⟨?_, ?_, ?_⟩
  · intro c S P
    have hne : ∀ p ∈ evictIfFull c.capacity
        (c.entries.filter (fun p => ¬ p.1 = simpleHash S)),
        ¬ p.1 = simpleHash S := by
      intro p hp
      apply filter_forall_ne c.entries (simpleHash S) p
      unfold evictIfFull at hp
      split at hp
      · exact List.mem_of_mem_tail hp
      · exact hp
    have hlk := lookup_append_of_forall_ne _ (simpleHash S)
      ({ key := simpleHash S, source := S, program := P } : CacheEntry) hne
    unfold ASTCache.get ASTCache.set
    simp only [hlk]
    simp
  · intro c S Q h
    unfold ASTCache.get at h
    revert h
    cases hlk : c.entries.lookup (simpleHash S) with
    | none => intro h; simp at h
    | some e =>
      intro h
      by_cases hs : e.source = S
      · refine ⟨(simpleHash S, e), mem_of_lookup_eq_some hlk, hs, ?_⟩
        simp [hs] at h
        exact h
      · simp [hs] at h
  · intro c S e hlk hs
    unfold ASTCache.get
    rw [hlk]
    simp [hs]

/-- Witness for C7 at concrete inputs: a fresh store-then-lookup
returns the stored program, and a cache holding an entry whose source
text differs from the (same-hashing) lookup key misses. -/
theorem c7_cache_correctness_witness :
    (((ASTCache.mk0 2).set ("a") .nullLit).get ("a")).1 =
      some AstNode.nullLit ∧
    (({ capacity := 2,
        entries := [(simpleHash ("a"),
          { key := simpleHash ("a"), source := ("b"),
            program := .nullLit })] } : ASTCache).get ("a")).1 = none := by
  constructor
  · exact c7_cache_correctness.1 (ASTCache.mk0 2) ("a") .nullLit
  · exact c7_cache_correctness.2.2 _ ("a") _ rfl (by decide)

/-- takeWhile over a satisfying prefix followed by a failing head. -/
theorem takeWhile_append_sat {p : Char → Bool} {b : List Char}
    (d : Char) (r : List Char) (hb : ∀ c ∈ b, p c = true)
    (hd : p d = false) : (b ++ d :: r).takeWhile p = b := by
  induction b with
  | nil => simp [List.takeWhile, hd]
  | cons c rest ih =>
    have hc := hb c (List.mem_cons_self c rest)
    simp only [List.cons_append, List.takeWhile, hc]
    exact congrArg (c :: ·) (ih (fun x hx => hb x (List.mem_cons_of_mem c hx)))

/-- dropWhile over a satisfying prefix followed by a failing head. -/
theorem dropWhile_append_sat {p : Char → Bool} {b : List Char}
    (d : Char) (r : List Char) (hb : ∀ c ∈ b, p c = true)
    (hd : p d = false) : (b ++ d :: r).dropWhile p = d :: r := by
  induction b with
  | nil => simp [List.dropWhile, hd]
  | cons c rest ih =>
    have hc := hb c (List.mem_cons_self c rest)
    simp only [List.cons_append, List.dropWhile, hc]
    exact ih (fun x hx => hb x (List.mem_cons_of_mem c hx))

/-- A character that is none of the skipped kinds passes `skipWs`
unchanged. -/
theorem skipWs_no_ws (fuel : Nat) (c : Char) (cs : List Char)
    (line col : Nat)
    (h1 : ¬ (c = (' ') ∨ c = ('\t') ∨ c = ('\r')))
    (h2 : ¬ c = ('\n')) (h3 : ¬ c = ('/')) :
    skipWs (fuel + 1) (c :: cs) line col = (c :: cs, line, col) := by
  unfold skipWs
  rw [if_neg h1, if_neg h2, if_neg (fun hc => h3 hc.1)]

/-- C3 (spec-modelled): a string template lexes as one opaque
STRING_TEMPLATE token whose literal text is the raw template body —
escape sequences are not processed, `${...}` is not parsed, and no
error is raised (lexing simply continues after the closing delimiter);
and the parser wraps a STRING_TEMPLATE token into a template node
carrying the raw text.  The first conjunct is about the lexer loop at
any token boundary; the second about parsePrimary at any token
position. -/
theorem c3_template_single_token
    (b rest : List Char) (line col fuel : Nat)
    (hb : ∀ c ∈ b, ¬ c = templateDelim)
    (toks : List Token) (pos pfuel : Nat)
    (ht : (curTok toks pos).type = .STRING_TEMPLATE) :
    (lexLoop (fuel + 1) (templateDelim :: (b ++ templateDelim :: rest))
        line col =
      match lexLoop fuel rest line (col + b.length + 2) with
      | .error e => .error e
      | .ok more =>
        .ok (createToken .STRING_TEMPLATE (String.mk b) line col ::
          more)) ∧
    parsePrimary (pfuel + 1) toks pos =
      .ok (.stringTemplate [.stringLit (curTok toks pos).value],
        pos + 1) := by
  constructor
  · have hskip : skipWs
        ((templateDelim :: (b ++ templateDelim :: rest)).length + 1)
        (templateDelim :: (b ++ templateDelim :: rest)) line col =
        (templateDelim :: (b ++ templateDelim :: rest), line, col) := by
      apply skipWs_no_ws <;> decide
    have htk : (b ++ templateDelim :: rest).takeWhile
        (fun c => ¬ c = templateDelim) = b := by
      apply takeWhile_append_sat
      · intro c hc
        simpa using hb c hc
      · simp
    have hdr : (b ++ templateDelim :: rest).dropWhile
        (fun c => ¬ c = templateDelim) = templateDelim :: rest := by
      apply dropWhile_append_sat
      · intro c hc
        simpa using hb c hc
      · simp
    simp only [lexLoop]
    rw [hskip]
    have hnt : nextToken templateDelim (b ++ templateDelim :: rest)
        line col =
        .ok (createToken .STRING_TEMPLATE (String.mk b) line col, rest,
          line, col + b.length + 2) := by
      unfold nextToken
      rw [if_neg (by decide), if_pos rfl]
      unfold readTemplate
      rw [htk, hdr]
      simp only []
      have : col + 1 + b.length + 1 = col + b.length + 2 := by omega
      rw [this]
    simp only [hnt]
  · have hnum : checkTok toks pos .NUMBER = false := by
      simp [checkTok, atEnd, ht]
    have hstr : checkTok toks pos .STRING = false := by
      simp [checkTok, atEnd, ht]
    have htpl : checkTok toks pos .STRING_TEMPLATE = true := by
      simp [checkTok, atEnd, ht]
    unfold parsePrimary
    rw [if_neg (by simp [hnum]), if_neg (by simp [hstr]),
      if_pos (by simp [htpl])]
    rfl

/-- Witness for C3 at a concrete template: the body `hi ${x}` (which
contains an interpolation marker the lexer must not parse) becomes a
single STRING_TEMPLATE token followed by the EOF of the remaining empty
input, and the parser wraps that token. -/
theorem c3_template_single_token_witness :
    lexLoop 2
        (templateDelim ::
          (([('h'), ('i'), (' '), ('$'), ('\x7b'), ('x'), ('\x7d')]) ++
            templateDelim :: [])) 1 1 =
      .ok [createToken .STRING_TEMPLATE ("hi $\x7bx\x7d") 1 1,
        createToken .EOF ("") 1 10] ∧
    parsePrimary 1 [createToken .STRING_TEMPLATE ("hi") 1 1] 0 =
      .ok (.stringTemplate [.stringLit ("hi")], 1) := by
  have h := c3_template_single_token
    ([('h'), ('i'), (' '), ('$'), ('\x7b'), ('x'), ('\x7d')]) [] 1 1 1
    (by decide)
    [createToken .STRING_TEMPLATE ("hi") 1 1] 0 0 (by decide)
  constructor
  · rw [h.1]
    rfl
  · exact h.2

/-- Bind stepping: a successful first component passes its value and
state to the continuation. -/
theorem bind_ok {α β : Type} {m : EvalM α} {k : α → EvalM β}
    {σ σ' : State} {a : α} (h : m σ = (.ok a, σ')) :
    (m >>= k) σ = k a σ' := by
  rw [bind_apply, h]

/-- C5: the logical operators `&&`/`and` and `||`/`or` evaluate both
operands, left then right, regardless of the left operand's truthiness
(the right operand's state effects always occur and the result combines
both truthinesses); elvis evaluates its right operand exactly when the
left evaluates to null/undefined, and otherwise returns the left value
unchanged without the right operand influencing the outcome at all (the
result is the same for every right operand). -/
theorem c5_logical_eager_elvis_short_circuit :
    (∀ (cfg : Config) (fuel : Nat) (op : String)
      (l r : AstNode) (σ σ0 σ1 σ2 : State) (lv rv : Value),
      (op = ("&&") ∨ op = ("and") ∨ op = ("||") ∨ op = ("or")) →
      checkLimits cfg σ = (.ok (), σ0) →
      evaluate cfg fuel l σ0 = (.ok lv, σ1) →
      evaluate cfg fuel r σ1 = (.ok rv, σ2) →
      evaluate cfg (fuel + 1) (.binaryExpr op l r) σ =
        (.ok (.vbool (if op = ("&&") ∨ op = ("and")
          then (isTruthy lv && isTruthy rv)
          else (isTruthy lv || isTruthy rv))), σ2)) ∧
    (∀ (cfg : Config) (fuel : Nat) (l : AstNode)
      (σ σ0 σ1 : State) (v : Value),
      checkLimits cfg σ = (.ok (), σ0) →
      evaluate cfg fuel l σ0 = (.ok v, σ1) → ¬ v = .vnull →
      ∀ r : AstNode,
        evaluate cfg (fuel + 1) (.elvisExpr l r) σ = (.ok v, σ1)) ∧
    (∀ (cfg : Config) (fuel : Nat) (l r : AstNode) (σ σ0 σ1 : State),
      checkLimits cfg σ = (.ok (), σ0) →
      evaluate cfg fuel l σ0 = (.ok .vnull, σ1) →
      evaluate cfg (fuel + 1) (.elvisExpr l r) σ =
        evaluate cfg fuel r σ1) := by
  refine ⟨?_, ?_, ?_⟩
  · intro cfg fuel op l r σ σ0 σ1 σ2 lv rv hop h0 h1 h2
    simp only [evaluate]
    rw [bind_ok h0, bind_ok h1, bind_ok h2]
    rcases hop with h | h | h | h <;> subst h <;>
      simp [applyBinary, pure_apply, Pure.pure]
  · intro cfg fuel l σ σ0 σ1 v h0 h1 hv r
    simp only [evaluate]
    rw [bind_ok h0, bind_ok h1]
    cases v with
    | vnull => exact absurd rfl hv
    | vbool b => rfl
    | vnum q => rfl
    | vstr s => rfl
    | varr es => rfl
    | vobj fs => rfl
    | vfunc ps body cl => rfl
    | vnative n => rfl
  · intro cfg fuel l r σ σ0 σ1 h0 h1
    simp only [evaluate]
    rw [bind_ok h0, bind_ok h1]

/-- Witness for C5 at concrete inputs: `0 && print("x")` prints (the
right side runs although the left is falsy) and yields false, `5 ?:
print("x")` yields 5 without printing, and `null ?: 7` evaluates the
right side. -/
theorem c5_logical_eager_elvis_short_circuit_witness :
    evaluate { quota := 0, funcs := defaultFuncs } 9
        (.binaryExpr ("&&") (.numberLit 0)
          (.callExpr (.identifier ("print")) [.stringLit ("x")]))
        { vars := Env.empty, output := [], opCount := 0 } =
      (.ok (.vbool false),
        { vars := Env.empty, output := [("x")], opCount := 0 }) ∧
    evaluate { quota := 0, funcs := defaultFuncs } 9
        (.elvisExpr (.numberLit 5)
          (.callExpr (.identifier ("print")) [.stringLit ("x")]))
        { vars := Env.empty, output := [], opCount := 0 } =
      (.ok (.vnum 5),
        { vars := Env.empty, output := [], opCount := 0 }) ∧
    evaluate { quota := 0, funcs := defaultFuncs } 9
        (.elvisExpr .nullLit (.numberLit 7))
        { vars := Env.empty, output := [], opCount := 0 } =
      (.ok (.vnum 7),
        { vars := Env.empty, output := [], opCount := 0 }) := by
  refine ⟨?_, ?_, ?_⟩
  · rw [c5_logical_eager_elvis_short_circuit.1
      { quota := 0, funcs := defaultFuncs } 8 ("&&") (.numberLit 0)
      (.callExpr (.identifier ("print")) [.stringLit ("x")])
      { vars := Env.empty, output := [], opCount := 0 }
      { vars := Env.empty, output := [], opCount := 0 }
      { vars := Env.empty, output := [], opCount := 0 }
      { vars := Env.empty, output := [("x")], opCount := 0 }
      (.vnum 0) .vnull (Or.inl rfl) rfl rfl rfl]
    rfl
  · rw [c5_logical_eager_elvis_short_circuit.2.1
      { quota := 0, funcs := defaultFuncs } 8 (.numberLit 5)
      { vars := Env.empty, output := [], opCount := 0 }
      { vars := Env.empty, output := [], opCount := 0 }
      { vars := Env.empty, output := [], opCount := 0 } (.vnum 5)
      rfl rfl (by simp)
      (.callExpr (.identifier ("print")) [.stringLit ("x")])]
  · rw [c5_logical_eager_elvis_short_circuit.2.2
      { quota := 0, funcs := defaultFuncs } 8 .nullLit (.numberLit 7)
      { vars := Env.empty, output := [], opCount := 0 }
      { vars := Env.empty, output := [], opCount := 0 }
      { vars := Env.empty, output := [], opCount := 0 } rfl rfl]
    rfl

/-- C1: evaluating a function literal produces a FunctionValue whose
captured environment is the variable mapping at that moment (a copy:
`new Map(this.variables)`); and in the capture scenario — create a
literal reading `x`, mutate `x`, create a second literal, invoke — the
first function observes the value captured at its creation rather than
the mutated one, the second observes the mutated one, and the two
closures hold different values for `x`.  The scenario is universally
quantified over the initial environment and the two numbers. -/
theorem c1_closure_capture_by_value :
    (∀ (cfg : Config) (fuel : Nat) (ps : List String)
      (body : List AstNode) (σ σ0 : State),
      checkLimits cfg σ = (.ok (), σ0) →
      evaluate cfg (fuel + 1) (.functionLit ps body) σ =
        (.ok (.vfunc ps body σ0.vars), σ0)) ∧
    (∀ (a b : ℚ) (vars : Env), ¬ a = b →
      (runP { quota := 0, funcs := defaultFuncs } 20
          (captureProg a b ("f"))
          { vars := vars, output := [], opCount := 0 }).1 =
        .ok (.vnum a) ∧
      (runP { quota := 0, funcs := defaultFuncs } 20
          (captureProg a b ("g"))
          { vars := vars, output := [], opCount := 0 }).1 =
        .ok (.vnum b) ∧
      ∃ cf cg : Env,
        (captureState a b vars).vars ("f") =
          some (.vfunc [] [.exprStmt (.identifier ("x"))] cf) ∧
        (captureState a b vars).vars ("g") =
          some (.vfunc [] [.exprStmt (.identifier ("x"))] cg) ∧
        cf ("x") = some (.vnum a) ∧ cg ("x") = some (.vnum b) ∧
        ¬ cf ("x") = cg ("x")) := by
  constructor
  · intro cfg fuel ps body σ σ0 h0
    simp only [evaluate]
    rw [bind_ok h0]
  · intro a b vars hab
    refine ⟨rfl, rfl, Env.set vars ("x") (.vnum a),
      Env.set (Env.set (Env.set vars ("x") (.vnum a)) ("f")
        (.vfunc [] [.exprStmt (.identifier ("x"))]
          (Env.set vars ("x") (.vnum a)))) ("x") (.vnum b),
      rfl, rfl, rfl, rfl, ?_⟩
    intro h
    rw [show (Env.set vars ("x") (.vnum a)) ("x") = some (.vnum a)
        from rfl] at h
    rw [show (Env.set (Env.set (Env.set vars ("x") (.vnum a)) ("f")
        (.vfunc [] [.exprStmt (.identifier ("x"))]
          (Env.set vars ("x") (.vnum a)))) ("x") (.vnum b)) ("x") =
        some (.vnum b) from rfl] at h
    injection h with h1
    injection h1 with h2
    exact hab h2

/-- Witness for C1 at concrete inputs: a literal captures the empty
environment, and the scenario with `a = 1`, `b = 2` yields 1 when
invoking the early closure and 2 when invoking the late one. -/
theorem c1_closure_capture_by_value_witness :
    evaluate { quota := 0, funcs := defaultFuncs } 1 (.functionLit [] [])
        { vars := Env.empty, output := [], opCount := 0 } =
      (.ok (.vfunc [] [] Env.empty),
        { vars := Env.empty, output := [], opCount := 0 }) ∧
    (runP { quota := 0, funcs := defaultFuncs } 20 (captureProg 1 2 ("f"))
        { vars := Env.empty, output := [], opCount := 0 }).1 =
      .ok (.vnum 1) ∧
    (runP { quota := 0, funcs := defaultFuncs } 20 (captureProg 1 2 ("g"))
        { vars := Env.empty, output := [], opCount := 0 }).1 =
      .ok (.vnum 2) := by
  refine ⟨?_, (c1_closure_capture_by_value.2 1 2 Env.empty
      (by norm_num)).1,
    (c1_closure_capture_by_value.2 1 2 Env.empty (by norm_num)).2.1⟩
  exact c1_closure_capture_by_value.1
    { quota := 0, funcs := defaultFuncs } 0 [] []
    { vars := Env.empty, output := [], opCount := 0 }
    { vars := Env.empty, output := [], opCount := 0 } rfl

/-- Parameter binding leaves names outside the parameter list
untouched. -/
theorem bindParamsFrom_not_mem (args : List Value) (name : String) :
    ∀ (ps : List String) (e : Env) (i : Nat), ¬ name ∈ ps →
      bindParamsFrom e ps args i name = e name := by
  intro ps
  induction ps with
  | nil => intro e i _; rfl
  | cons p rest ih =>
    intro e i h
    have hp : ¬ name = p := fun he => h (he ▸ List.mem_cons_self p rest)
    have hr : ¬ name ∈ rest := fun hm => h (List.mem_cons_of_mem p hm)
    unfold bindParamsFrom
    rw [ih _ _ hr]
    unfold Env.set
    rw [if_neg hp]

/-- Parameter binding is positional: with distinct parameter names, the
`j`-th parameter (binding loop started at index `i`) maps to
`args[i + j] ?? null`. -/
theorem bindParamsFrom_get (args : List Value) :
    ∀ (ps : List String) (e : Env) (i j : Nat) (hnd : ps.Nodup)
      (hj : j < ps.length),
      bindParamsFrom e ps args i (ps.get ⟨j, hj⟩) =
        some (args.getD (i + j) .vnull) := by
  intro ps
  induction ps with
  | nil => intro e i j _ hj; exact absurd hj (by simp)
  | cons p rest ih =>
    intro e i j hnd hj
    cases j with
    | zero =>
      unfold bindParamsFrom
      have hp : ¬ p ∈ rest := (List.nodup_cons.mp hnd).1
      simp only [List.get]
      rw [bindParamsFrom_not_mem args p rest _ _ hp]
      unfold Env.set
      simp
    | succ j' =>
      unfold bindParamsFrom
      have := ih (e.set p (args.getD i .vnull)) (i + 1) j'
        (List.nodup_cons.mp hnd).2 (by simpa using Nat.lt_of_succ_lt_succ hj)
      simp only [List.get]
      rw [this]
      congr 2
      omega

/-- C4: the function-application protocol.  (e) The variable map is
restored unconditionally: whatever the body does — complete, raise the
return signal, or fail with any error (including fuel exhaustion) — the
final variable map equals the pre-call one.  (b) Merging the captured
environment lets captured bindings overwrite same-named live bindings
and leaves other names to the live map.  (c) Parameters bind
positionally, with missing trailing arguments bound to null, and
non-parameter names are unaffected.  (a,d) The whole call equals:
evaluate the body statements in order, starting from the snapshot's
merge-and-bind environment, converting a return signal into the call's
value, propagating errors, and restoring the snapshot. -/
theorem c4_apply_function_protocol :
    (∀ (cfg : Config) (fuel : Nat) (ps : List String)
      (body : List AstNode) (cl : Env) (args : List Value) (σ : State),
      ((applyFunctionWith (fun n => evaluate cfg fuel n) ps body cl
        args) σ).2.vars = σ.vars) ∧
    (∀ (vars cl : Env) (name : String) (v : Value),
      cl name = some v → mergeEnv vars cl name = some v) ∧
    (∀ (vars cl : Env) (name : String),
      cl name = none → mergeEnv vars cl name = vars name) ∧
    (∀ (e : Env) (ps : List String) (args : List Value) (j : Nat)
      (hnd : ps.Nodup) (hj : j < ps.length),
      bindParams e ps args (ps.get ⟨j, hj⟩) =
        some (args.getD j .vnull)) ∧
    (∀ (e : Env) (ps : List String) (args : List Value) (name : String),
      ¬ name ∈ ps → bindParams e ps args name = e name) ∧
    (∀ (cfg : Config) (fuel : Nat) (ps : List String)
      (body : List AstNode) (cl : Env) (args : List Value) (σ : State),
      applyFunctionWith (fun n => evaluate cfg fuel n) ps body cl args
          σ =
        (match evalStmtsWith (fun n => evaluate cfg fuel n) body .vnull
            { σ with
              vars := bindParams (mergeEnv σ.vars cl) ps args } with
         | (.ok v, σ') => (.ok v, { σ' with vars := σ.vars })
         | (.ret v, σ') => (.ok v, { σ' with vars := σ.vars })
         | (.err e, σ') => (.err e, { σ' with vars := σ.vars }))) := by
  refine ⟨?_, ?_, ?_, ?_, ?_, ?_⟩
  · intro cfg fuel ps body cl args σ
    unfold applyFunctionWith
    cases hE : evalStmtsWith (fun n => evaluate cfg fuel n) body .vnull
        { σ with vars := bindParams (mergeEnv σ.vars cl) ps args } with
    | mk r σ' => cases r <;> rfl
  · intro vars cl name v h
    unfold mergeEnv
    rw [h]
    rfl
  · intro vars cl name h
    unfold mergeEnv
    rw [h]
    rfl
  · intro e ps args j hnd hj
    unfold bindParams
    have := bindParamsFrom_get args ps e 0 j hnd hj
    simpa using this
  · intro e ps args name h
    exact bindParamsFrom_not_mem args name ps e 0 h
  · intro cfg fuel ps body cl args σ
    rfl

/-- Witness for C4 at a concrete call: a body that raises the return
signal restores the caller's variables while returning the value, and
the binding facts hold for a two-parameter call with one argument. -/
theorem c4_apply_function_protocol_witness :
    ((applyFunctionWith
        (fun n => evaluate { quota := 0, funcs := defaultFuncs } 5 n)
        [("p")] [.returnStmt (some (.identifier ("p")))] Env.empty
        [.vnum 3]
        { vars := Env.empty.set ("p") (.vnum 9), output := [],
          opCount := 0 }).2.vars = Env.empty.set ("p") (.vnum 9)) ∧
    bindParams Env.empty [("p"), ("q")] [.vnum 3]
        (([("p"), ("q")] : List String).get ⟨1, by decide⟩) =
      some .vnull ∧
    bindParams Env.empty [("p"), ("q")] [.vnum 3] ("z") =
      Env.empty ("z") ∧
    mergeEnv (Env.empty.set ("x") (.vnum 1))
        (Env.empty.set ("x") (.vnum 2)) ("x") = some (.vnum 2) := by
  refine ⟨c4_apply_function_protocol.1 _ 5 _ _ _ _ _,
    c4_apply_function_protocol.2.2.2.1 Env.empty [("p"), ("q")]
      [.vnum 3] 1 (by decide) (by decide),
    c4_apply_function_protocol.2.2.2.2.1 Env.empty [("p"), ("q")]
      [.vnum 3] ("z") (by decide),
    c4_apply_function_protocol.2.1 (Env.empty.set ("x") (.vnum 1))
      (Env.empty.set ("x") (.vnum 2)) ("x") (.vnum 2) rfl⟩

/-- The limit check never touches the variable map. -/
theorem checkLimits_vars (cfg : Config) (σ : State) :
    ((checkLimits cfg σ).2).vars = σ.vars := by
  unfold checkLimits
  split
  · split <;> rfl
  · rfl

/-- C9: after a for-loop finishes — normally, by a return signal, or by
any error — the loop variable's binding is restored: a pre-existing
binding holds its pre-loop value afterwards, and a previously-unbound
name is removed (mapped to none) afterwards.  The hypothesis states
that evaluating the iterable expression itself leaves the loop
variable's binding unchanged, which holds for every expression (only
`let`/assignment statements and loop/call bookkeeping write bindings,
and calls restore them). -/
theorem c9_for_loop_variable_restoration
    (cfg : Config) (fuel : Nat) (name : String) (iterNode : AstNode)
    (body : List AstNode) (σ σ0 : State)
    (h0 : checkLimits cfg σ = (.ok (), σ0))
    (hIter : ((evaluate cfg fuel iterNode) σ0).2.vars name =
      σ0.vars name) :
    ((evaluate cfg (fuel + 1) (.forStmt name iterNode body)) σ).2.vars
        name = σ.vars name := by
  have hvars : σ0.vars = σ.vars := by
    have := checkLimits_vars cfg σ
    rw [h0] at this
    exact this
  simp only [evaluate]
  cases hit : evaluate cfg fuel iterNode σ0 with
  | mk r1 σ1 =>
    have h1 : σ1.vars name = σ.vars name := by
      rw [← hvars]
      rw [hit] at hIter
      exact hIter
    simp only [bind_apply, h0, hit]
    cases r1 with
    | ret v => exact h1
    | err e => exact h1
    | ok v =>
      cases v with
      | varr items =>
        simp only []
        cases hloop : forLoopWith (fun n => evaluate cfg fuel n) name
            body items Value.vnull σ1 with
        | mk r2 σ2 =>
          cases hprev : σ1.vars name with
          | none =>
            cases r2 <;>
              simp [hloop, hprev, Env.del, ← h1, hprev]
          | some w =>
            cases r2 <;>
              simp [hloop, hprev, Env.set, ← h1, hprev]
      | vnull => exact h1
      | vbool b => exact h1
      | vnum q => exact h1
      | vstr s => exact h1
      | vobj fs => exact h1
      | vfunc ps b c => exact h1
      | vnative n => exact h1

/-- Witness for C9 at the spec's scenario: after
`let n = 100; for (n in [1, 2]) { print(n) }` the binding of `n` is
100 again, and running the same loop with `n` previously unbound leaves
`n` unbound. -/
theorem c9_for_loop_variable_restoration_witness :
    ((evaluate { quota := 0, funcs := defaultFuncs } 10
        (.forStmt ("n") (.arrayLit [.numberLit 1, .numberLit 2])
          [.exprStmt (.callExpr (.identifier ("print"))
            [.identifier ("n")])])
        { vars := Env.empty.set ("n") (.vnum 100), output := [],
          opCount := 0 }).2.vars ("n") = some (.vnum 100)) ∧
    ((evaluate { quota := 0, funcs := defaultFuncs } 10
        (.forStmt ("n") (.arrayLit [.numberLit 1, .numberLit 2])
          [.exprStmt (.callExpr (.identifier ("print"))
            [.identifier ("n")])])
        { vars := Env.empty, output := [], opCount := 0 }).2.vars
      ("n") = none) := by
  constructor
  · exact (c9_for_loop_variable_restoration
      { quota := 0, funcs := defaultFuncs } 9 ("n")
      (.arrayLit [.numberLit 1, .numberLit 2])
      [.exprStmt (.callExpr (.identifier ("print"))
        [.identifier ("n")])]
      { vars := Env.empty.set ("n") (.vnum 100), output := [],
        opCount := 0 }
      { vars := Env.empty.set ("n") (.vnum 100), output := [],
        opCount := 0 } rfl rfl).trans rfl
  · exact (c9_for_loop_variable_restoration
      { quota := 0, funcs := defaultFuncs } 9 ("n")
      (.arrayLit [.numberLit 1, .numberLit 2])
      [.exprStmt (.callExpr (.identifier ("print"))
        [.identifier ("n")])]
      { vars := Env.empty, output := [], opCount := 0 }
      { vars := Env.empty, output := [], opCount := 0 } rfl rfl).trans
      rfl

/-- C10: when a call expression's callee is a bare identifier whose
name is registered in the function registry (and the higher-order
special case does not apply), the registered function is invoked — the
dispatch consults only the registry, so the result is the same whatever
the variable map binds under that name; whereas evaluating the same
identifier outside call position is variable-first.  The print
special-casing at the call site is part of the dispatch equation. -/
theorem c10_call_dispatch_registry_first :
    (∀ (cfg : Config) (fuel : Nat) (name : String)
      (argNodes : List AstNode) (f : List Value → Value)
      (σ σ0 σ1 : State) (args : List Value),
      checkLimits cfg σ = (.ok (), σ0) →
      evalListWith (fun n => evaluate cfg fuel n) argNodes σ0 =
        (.ok args, σ1) →
      cfg.funcs name = some f →
      ¬ (hoNames.contains name = true ∧
        isArrFnPair (args.getD 0 .vnull) (args.getD 1 .vnull) = true) →
      evaluate cfg (fuel + 1) (.callExpr (.identifier name) argNodes)
          σ =
        (if name = ("print") then
          (.ok .vnull,
            { σ1 with output := σ1.output ++ [jsString (f args)] })
        else (.ok (f args), σ1))) ∧
    (∀ (cfg : Config) (fuel : Nat) (name : String) (σ σ0 : State)
      (v : Value),
      checkLimits cfg σ = (.ok (), σ0) → σ0.vars name = some v →
      evaluate cfg (fuel + 1) (.identifier name) σ = (.ok v, σ0)) := by
  constructor
  · intro cfg fuel name argNodes f σ σ0 σ1 args h0 hargs hf hno
    simp only [evaluate]
    rw [bind_ok h0, bind_ok hargs]
    simp only [if_neg hno, hf]
    by_cases hp : name = ("print")
    · rw [if_pos hp, if_pos hp]
    · rw [if_neg hp, if_neg hp]
      rfl
  · intro cfg fuel name σ σ0 v h0 hv
    simp only [evaluate]
    rw [bind_ok h0]
    unfold evalIdent
    rw [hv]

/-- Witness for C10: with a variable named `length` bound to 99, the
call `length("hi")` still dispatches to the native and yields 2, while
the bare identifier `length` evaluates to the variable's 99. -/
theorem c10_call_dispatch_registry_first_witness :
    evaluate { quota := 0, funcs := defaultFuncs } 2
        (.callExpr (.identifier ("length")) [.stringLit ("hi")])
        { vars := Env.empty.set ("length") (.vnum 99), output := [],
          opCount := 0 } =
      (.ok (.vnum 2),
        { vars := Env.empty.set ("length") (.vnum 99), output := [],
          opCount := 0 }) ∧
    evaluate { quota := 0, funcs := defaultFuncs } 1
        (.identifier ("length"))
        { vars := Env.empty.set ("length") (.vnum 99), output := [],
          opCount := 0 } =
      (.ok (.vnum 99),
        { vars := Env.empty.set ("length") (.vnum 99), output := [],
          opCount := 0 }) := by
  constructor
  · exact (c10_call_dispatch_registry_first.1
      { quota := 0, funcs := defaultFuncs } 1 ("length")
      [.stringLit ("hi")] (nativeImpl ("length"))
      { vars := Env.empty.set ("length") (.vnum 99), output := [],
        opCount := 0 }
      { vars := Env.empty.set ("length") (.vnum 99), output := [],
        opCount := 0 }
      { vars := Env.empty.set ("length") (.vnum 99), output := [],
        opCount := 0 }
      [.vstr ("hi")] rfl rfl rfl (by decide)).trans rfl
  · exact c10_call_dispatch_registry_first.2
      { quota := 0, funcs := defaultFuncs } 0 ("length")
      { vars := Env.empty.set ("length") (.vnum 99), output := [],
        opCount := 0 }
      { vars := Env.empty.set ("length") (.vnum 99), output := [],
        opCount := 0 } (.vnum 99) rfl rfl

/-- C8 counterexample: the claim says every failure during lexing,
parsing, or evaluation yields a result with empty output, a null value
and exactly one error message.  But in execute only `interpreter.run`
sits inside the try/catch — the lex/parse pipeline runs before it,
outside — so a parse failure escapes execute as a raised exception (the
`.error` outcome) instead of any ScriptResult: here on the source
`"("`. -/
theorem c8_boundary_counterexample :
    (execute plainCfg ("(") (ASTCache.mk0 1000) 100).1 =
      .error ("Unexpected token:  at line 1") ∧
    ∀ r : ScriptResult,
      ¬ (execute plainCfg ("(") (ASTCache.mk0 1000) 100).1 = .ok r := by
  constructor
  · rfl
  · intro r h
    rw [show (execute plainCfg ("(") (ASTCache.mk0 1000) 100).1 =
        Except.error ("Unexpected token:  at line 1") from rfl] at h
    exact Except.noConfusion h

/-- C8 (amended): failures during *evaluation* are caught at the
execute boundary and yield an empty output sequence (already-collected
printed lines are not surfaced), a null value and exactly one error
message; a return signal reaching the program boundary is not an
error — execution yields the returned value with an empty error
sequence; but failures during *lexing or parsing* are not converted:
they propagate out of execute as raised exceptions. -/
theorem c8_boundary_amended :
    (∀ (b : BuilderCfg) (source : String) (cache : ASTCache)
      (fuel : Nat) (e : LexErr ⊕ ParseErr),
      b.useCache = false → lexParse source = .error e →
      (execute b source cache fuel).1 = .error (lexParseMsg e)) ∧
    (∀ (b : BuilderCfg) (source : String) (cache : ASTCache)
      (fuel : Nat) (stmts : List AstNode) (e : EvalErr) (σ' : State),
      b.useCache = false → lexParse source = .ok (.program stmts) →
      runP { quota := b.maxOps, funcs := regOf b } fuel stmts
          { vars := b.vars, output := [], opCount := 0 } =
        (.err e, σ') →
      (execute b source cache fuel).1 =
        .ok ⟨[], .vnull, [evalErrMsg e]⟩) ∧
    (∀ (cfg : Config) (fuel : Nat) (stmts : List AstNode) (σ : State)
      (v : Value) (σ' : State),
      evalStmtsWith (fun n => evaluate cfg fuel n) stmts .vnull
          { σ with output := [] } = (.ret v, σ') →
      runP cfg fuel stmts σ = (.ok v, σ')) ∧
    (∀ (b : BuilderCfg) (source : String) (cache : ASTCache)
      (fuel : Nat) (stmts : List AstNode) (v : Value) (σ' : State),
      b.useCache = false → lexParse source = .ok (.program stmts) →
      runP { quota := b.maxOps, funcs := regOf b } fuel stmts
          { vars := b.vars, output := [], opCount := 0 } =
        (.ok v, σ') →
      (execute b source cache fuel).1 =
        .ok ⟨σ'.output, v, []⟩) := by
  refine ⟨?_, ?_, ?_, ?_⟩
  · intro b source cache fuel e huc hlex
    unfold execute
    rw [huc]
    simp only [Bool.false_eq_true, if_false, hlex]
  · intro b source cache fuel stmts e σ' huc hlex hrun
    unfold execute
    rw [huc]
    simp only [Bool.false_eq_true, if_false, hlex, hrun]
  · intro cfg fuel stmts σ v σ' hE
    unfold runP
    rw [hE]
  · intro b source cache fuel stmts v σ' huc hlex hrun
    unfold execute
    rw [huc]
    simp only [Bool.false_eq_true, if_false, hlex, hrun]

/-- Witness for C8 (amended) at concrete sources: `print("a") y = 1`
fails during evaluation after printing, and execute surfaces no output,
a null value and exactly the one message; `return 5` supplies the final
value with no errors. -/
theorem c8_boundary_amended_witness :
    (execute plainCfg ("print(\"a\")\ny = 1") (ASTCache.mk0 1000)
        20).1 =
      .ok ⟨[], .vnull, [("Variable \x27y\x27 not defined")]⟩ ∧
    (execute plainCfg ("return 5") (ASTCache.mk0 1000) 20).1 =
      .ok ⟨[], .vnum 5, []⟩ := by
  constructor
  · exact c8_boundary_amended.2.1 plainCfg ("print(\"a\")\ny = 1")
      (ASTCache.mk0 1000) 20
      [.exprStmt (.callExpr (.identifier ("print")) [.stringLit ("a")]),
        .assignStmt ("y") (.numberLit 1)]
      (.rt ("Variable \x27y\x27 not defined"))
      { vars := plainCfg.vars, output := [("a")], opCount := 0 }
      rfl rfl rfl
  · refine c8_boundary_amended.2.2.2 plainCfg ("return 5")
      (ASTCache.mk0 1000) 20 [.returnStmt (some (.numberLit 5))]
      (.vnum 5) { vars := plainCfg.vars, output := [], opCount := 0 }
      rfl rfl ?_
    exact c8_boundary_amended.2.2.1
      { quota := plainCfg.maxOps, funcs := regOf plainCfg } 20
      [.returnStmt (some (.numberLit 5))]
      { vars := plainCfg.vars, output := [], opCount := 0 } (.vnum 5)
      { vars := plainCfg.vars, output := [], opCount := 0 } rfl

/-! ### The quota simulation (for C6).

`SimQ N M c` relates the same computation run under quotas `M` and `N`:
runs proceed in lockstep while the operation counter stays within both
quotas, and the smaller-quota run fails with the quota error exactly
when the counter would pass it.  The lemmas below close `SimQ` under
the building blocks of the evaluator, and an induction on fuel lifts it
to `evaluate` and `runP`. -/

section SimQLemmas

variable {N M : Nat}

/-- Pointwise-equal computations share `SimQ`. -/
theorem simq_congr {α : Type} {c c' : Nat → EvalM α}
    (h : ∀ q σ, c q σ = c' q σ) (h' : SimQ N M c') : SimQ N M c := by
  intro σ r σM hc hr
  rw [h] at hc
  obtain ⟨h1, h2, h3⟩ := h' σ r σM hc hr
  refine ⟨h1, ?_, ?_⟩
  · intro hle
    rw [h]
    exact h2 hle
  · intro hgt hle
    obtain ⟨σ'', h''⟩ := h3 hgt hle
    exact ⟨σ'', by rw [h]; exact h''⟩

/-- A quota-independent step that does not change the counter satisfies
`SimQ`. -/
theorem simq_stateOp {α : Type} (g : EvalM α)
    (hop : ∀ σ, ((g σ).2).opCount = σ.opCount) :
    SimQ N M (fun _ => g) := by
  intro σ r σM hc hr
  have hc' : g σ = (r, σM) := hc
  have h := hop σ
  rw [hc'] at h
  refine ⟨le_of_eq h.symm, fun _ => hc, fun hgt hle => ?_⟩
  exact absurd (h ▸ hgt) (not_lt.mpr hle)

/-- `pure` satisfies `SimQ`. -/
theorem simq_pure {α : Type} (a : α) :
    SimQ N M (fun _ => (pure a : EvalM α)) :=
  simq_stateOp _ (fun _ => rfl)

/-- The limit check satisfies `SimQ` for positive quotas. -/
theorem simq_checkLimits (F : String → Option (List Value → Value))
    (hN : 0 < N) (hM : 0 < M) :
    SimQ N M (fun q => checkLimits { quota := q, funcs := F }) := by
  intro σ r σM hc hr
  unfold checkLimits at hc ⊢
  simp only [hM, if_pos] at hc
  by_cases hover : M < σ.opCount + 1
  · rw [if_pos hover] at hc
    injection hc with h1 h2
    exact absurd h1.symm hr
  · rw [if_neg hover] at hc
    injection hc with h1 h2
    subst h1
    subst h2
    refine ⟨by simp, ?_, ?_⟩
    · intro hle
      simp only [hN, if_pos]
      rw [if_neg (by simpa using hle)]
    · intro hgt hle
      refine ⟨{ σ with opCount := σ.opCount + 1 }, ?_⟩
      simp only [hN, if_pos]
      rw [if_pos (by simpa using hgt)]

/-- `SimQ` is closed under bind. -/
theorem simq_bind {α β : Type} {m : Nat → EvalM α}
    {k : α → Nat → EvalM β} (hm : SimQ N M m)
    (hk : ∀ a, SimQ N M (k a)) :
    SimQ N M (fun q => m q >>= fun a => k a q) := by
  intro σ r σM hc0 hr
  have hc : (m M >>= fun a => k a M) σ = (r, σM) := hc0
  clear hc0
  rw [bind_apply] at hc
  cases hm1 : m M σ with
  | mk r1 σ1 =>
    rw [hm1] at hc
    cases r1 with
    | ok a =>
      have hck : k a M σ1 = (r, σM) := hc
      have hr1 : (Res.ok a : Res α) ≠ Res.err .limits := by
        intro h; exact Res.noConfusion h
      obtain ⟨mono1, heq1, hlim1⟩ := hm σ (.ok a) σ1 hm1 hr1
      obtain ⟨mono2, heq2, hlim2⟩ := hk a σ1 r σM hck hr
      refine ⟨le_trans mono1 mono2, ?_, ?_⟩
      · intro hle
        show (m N >>= fun a => k a N) σ = (r, σM)
        rw [bind_apply, heq1 (le_trans mono2 hle)]
        exact heq2 hle
      · intro hgt hle
        by_cases h1 : σ1.opCount ≤ N
        · obtain ⟨σ'', h''⟩ := hlim2 hgt h1
          refine ⟨σ'', ?_⟩
          show (m N >>= fun a => k a N) σ = (Res.err .limits, σ'')
          rw [bind_apply, heq1 h1]
          exact h''
        · obtain ⟨σ'', h''⟩ := hlim1 (not_le.mp h1) hle
          refine ⟨σ'', ?_⟩
          show (m N >>= fun a => k a N) σ = (Res.err .limits, σ'')
          rw [bind_apply, h'']
    | ret v =>
      have hcr : ((Res.ret v : Res β), σ1) = (r, σM) := hc
      injection hcr with h1 h2
      subst h1
      subst h2
      have hr1 : (Res.ret v : Res α) ≠ Res.err .limits := by
        intro h; exact Res.noConfusion h
      obtain ⟨mono1, heq1, hlim1⟩ := hm σ (.ret v) σ1 hm1 hr1
      refine ⟨mono1, ?_, ?_⟩
      · intro hle
        show (m N >>= fun a => k a N) σ = (Res.ret v, σ1)
        rw [bind_apply, heq1 hle]
      · intro hgt hle
        obtain ⟨σ'', h''⟩ := hlim1 hgt hle
        refine ⟨σ'', ?_⟩
        show (m N >>= fun a => k a N) σ = (Res.err .limits, σ'')
        rw [bind_apply, h'']
    | err e =>
      have hcr : ((Res.err e : Res β), σ1) = (r, σM) := hc
      injection hcr with h1 h2
      subst h1
      subst h2
      have hr1 : (Res.err e : Res α) ≠ Res.err .limits := by
        intro h
        exact hr (by rw [show e = EvalErr.limits from Res.err.inj h])
      obtain ⟨mono1, heq1, hlim1⟩ := hm σ (.err e) σ1 hm1 hr1
      refine ⟨mono1, ?_, ?_⟩
      · intro hle
        show (m N >>= fun a => k a N) σ = (Res.err e, σ1)
        rw [bind_apply, heq1 hle]
      · intro hgt hle
        obtain ⟨σ'', h''⟩ := hlim1 hgt hle
        refine ⟨σ'', ?_⟩
        show (m N >>= fun a => k a N) σ = (Res.err .limits, σ'')
        rw [bind_apply, h'']

/-- Running the computation in a pre-modified state whose counter is
unchanged preserves `SimQ`. -/
theorem simq_premod {α : Type} {m : Nat → EvalM α} (hm : SimQ N M m)
    (g : State → State) (hg : ∀ σ, (g σ).opCount = σ.opCount) :
    SimQ N M (fun q σ => m q (g σ)) := by
  intro σ r σM hc hr
  obtain ⟨h1, h2, h3⟩ := hm (g σ) r σM hc hr
  exact ⟨le_trans (le_of_eq (hg σ).symm) h1, h2,
    fun hgt hle => h3 hgt (le_trans (le_of_eq (hg σ)) hle)⟩

/-- Re-mapping a computation's result and final state (keeping the
counter and mapping the quota error to itself and nothing else to it)
preserves `SimQ`. -/
theorem simq_mapOut {α β : Type} {m : Nat → EvalM α} (hm : SimQ N M m)
    (ρ : Res α → Res β) (g : State → State → State)
    (hρ : ∀ r, ρ r = Res.err .limits ↔ r = Res.err .limits)
    (hg : ∀ σ σ', (g σ σ').opCount = σ'.opCount) :
    SimQ N M (fun q σ => (ρ ((m q σ).1), g σ ((m q σ).2))) := by
  intro σ r σM hc0 hr
  have hc : (ρ ((m M σ).1), g σ ((m M σ).2)) = (r, σM) := hc0
  clear hc0
  cases hm1 : m M σ with
  | mk r1 σ1 =>
    rw [hm1] at hc
    injection hc with h1 h2
    subst h1
    subst h2
    have hr1 : r1 ≠ Res.err .limits := fun he => hr (by rw [he, (hρ _).mpr rfl])
    obtain ⟨mono1, heq1, hlim1⟩ := hm σ r1 σ1 hm1 hr1
    have hcnt : σ1.opCount = (g σ σ1).opCount := (hg σ σ1).symm
    refine ⟨le_trans mono1 (le_of_eq hcnt), ?_, ?_⟩
    · intro hle
      show (ρ ((m N σ).1), g σ ((m N σ).2)) = (ρ r1, g σ σ1)
      rw [heq1 (le_trans (le_of_eq hcnt) hle)]
    · intro hgt hle
      obtain ⟨σ'', h''⟩ := hlim1 (lt_of_lt_of_eq hgt hcnt.symm) hle
      refine ⟨g σ σ'', ?_⟩
      show (ρ ((m N σ).1), g σ ((m N σ).2)) = (Res.err .limits, g σ σ'')
      rw [h'']
      rw [(hρ (Res.err .limits)).mpr rfl]

end SimQLemmas

/-! Primitive evaluator actions: they leave the state untouched, so
they are quota-independent and never produce the quota error. -/

/-- applyBinary is always a pure result or a thrown runtime error. -/
theorem applyBinary_shape (op : String) (l r : Value) :
    (∃ v, applyBinary op l r = pure v) ∨
    (∃ msg, applyBinary op l r = throwRt msg) := by
  unfold applyBinary
  by_cases h1 : op = ("+")
  · rw [if_pos h1]
    cases l <;> cases r <;> exact Or.inl ⟨_, rfl⟩
  · rw [if_neg h1]
    by_cases h2 : op = ("-")
    · rw [if_pos h2]
      exact Or.inl ⟨_, rfl⟩
    · rw [if_neg h2]
      by_cases h3 : op = ("*")
      · rw [if_pos h3]
        exact Or.inl ⟨_, rfl⟩
      · rw [if_neg h3]
        by_cases h4 : op = ("/")
        · rw [if_pos h4]
          exact Or.inl ⟨_, rfl⟩
        · rw [if_neg h4]
          by_cases h5 : op = ("%")
          · rw [if_pos h5]
            exact Or.inl ⟨_, rfl⟩
          · rw [if_neg h5]
            by_cases h6 : op = ("==")
            · rw [if_pos h6]
              exact Or.inl ⟨_, rfl⟩
            · rw [if_neg h6]
              by_cases h7 : op = ("!=")
              · rw [if_pos h7]
                exact Or.inl ⟨_, rfl⟩
              · rw [if_neg h7]
                by_cases h8 : op = ("<")
                · rw [if_pos h8]
                  exact Or.inl ⟨_, rfl⟩
                · rw [if_neg h8]
                  by_cases h9 : op = ("<=")
                  · rw [if_pos h9]
                    exact Or.inl ⟨_, rfl⟩
                  · rw [if_neg h9]
                    by_cases h10 : op = (">")
                    · rw [if_pos h10]
                      exact Or.inl ⟨_, rfl⟩
                    · rw [if_neg h10]
                      by_cases h11 : op = (">=")
                      · rw [if_pos h11]
                        exact Or.inl ⟨_, rfl⟩
                      · rw [if_neg h11]
                        by_cases h12 : op = ("&&") ∨ op = ("and")
                        · rw [if_pos h12]
                          exact Or.inl ⟨_, rfl⟩
                        · rw [if_neg h12]
                          by_cases h13 : op = ("||") ∨ op = ("or")
                          · rw [if_pos h13]
                            exact Or.inl ⟨_, rfl⟩
                          · rw [if_neg h13]
                            exact Or.inr ⟨_, rfl⟩

/-- applyUnary is always a pure result or a thrown runtime error. -/
theorem applyUnary_shape (op : String) (v : Value) :
    (∃ w, applyUnary op v = pure w) ∨
    (∃ msg, applyUnary op v = throwRt msg) := by
  unfold applyUnary
  by_cases h1 : op = ("-")
  · rw [if_pos h1]
    exact Or.inl ⟨_, rfl⟩
  · rw [if_neg h1]
    by_cases h2 : op = ("!") ∨ op = ("not")
    · rw [if_pos h2]
      exact Or.inl ⟨_, rfl⟩
    · rw [if_neg h2]
      exact Or.inr ⟨_, rfl⟩

/-- applyBinary leaves the state unchanged. -/
theorem applyBinary_state (op : String) (l r : Value) (σ : State) :
    ((applyBinary op l r) σ).2 = σ := by
  rcases applyBinary_shape op l r with ⟨v, hv⟩ | ⟨msg, hm⟩
  · rw [hv]; rfl
  · rw [hm]; rfl

/-- applyUnary leaves the state unchanged. -/
theorem applyUnary_state (op : String) (v : Value) (σ : State) :
    ((applyUnary op v) σ).2 = σ := by
  rcases applyUnary_shape op v with ⟨w, hw⟩ | ⟨msg, hm⟩
  · rw [hw]; rfl
  · rw [hm]; rfl

/-- evalIdent leaves the state unchanged. -/
theorem evalIdent_state (cfg : Config) (name : String) (σ : State) :
    ((evalIdent cfg name) σ).2 = σ := by
  simp only [evalIdent]
  rcases hv : σ.vars name with _ | v
  · rcases hf : cfg.funcs name with _ | f <;> simp [hv, hf]
  · simp [hv]

/-- The funcs field of a literal configuration. -/
theorem funcs_lit (q : Nat) (F : String → Option (List Value → Value)) :
    ({ quota := q, funcs := F } : Config).funcs = F := rfl

section SimQEval

variable {N M : Nat}

/-- `SimQ` is closed under a quota-independent if-then-else. -/
theorem simq_ite {α : Type} {P : Prop} [Decidable P]
    {c d : Nat → EvalM α} (hc : SimQ N M c) (hd : SimQ N M d) :
    SimQ N M (fun q => if P then c q else d q) := by
  by_cases h : P
  · simp only [if_pos h]
    exact hc
  · simp only [if_neg h]
    exact hd

/-- `SimQ` is closed under post-processing that keeps the result kind
and maps only the final state (through a counter-preserving function of
the entry state). -/
theorem simq_wrap {m : Nat → EvalM Value} (hm : SimQ N M m)
    (g : State → State → State)
    (hg : ∀ σ σ', (g σ σ').opCount = σ'.opCount) :
    SimQ N M (fun q σ =>
      match m q σ with
      | (.ok v, σ') => (Res.ok v, g σ σ')
      | (.ret v, σ') => (Res.ret v, g σ σ')
      | (.err e, σ') => (Res.err e, g σ σ')) := by
  intro σ r σM hc0 hr
  have hc : (match m M σ with
      | (.ok v, σ') => (Res.ok v, g σ σ')
      | (.ret v, σ') => (Res.ret v, g σ σ')
      | (.err e, σ') => (Res.err e, g σ σ')) = (r, σM) := hc0
  clear hc0
  cases hm1 : m M σ with
  | mk r1 σ1 =>
    rw [hm1] at hc
    cases r1 with
    | ok v =>
      have hc' : ((Res.ok v : Res Value), g σ σ1) = (r, σM) := hc
      injection hc' with h1 h2
      subst h1
      subst h2
      have hr1 : (Res.ok v : Res Value) ≠ Res.err .limits := by
        intro h; exact Res.noConfusion h
      obtain ⟨mono1, heq1, hlim1⟩ := hm σ (.ok v) σ1 hm1 hr1
      refine ⟨le_trans mono1 (le_of_eq (hg σ σ1).symm), ?_, ?_⟩
      · intro hle
        show (match m N σ with
          | (.ok v, σ') => (Res.ok v, g σ σ')
          | (.ret v, σ') => (Res.ret v, g σ σ')
          | (.err e, σ') => (Res.err e, g σ σ')) =
            ((Res.ok v : Res Value), g σ σ1)
        rw [heq1 (le_trans (le_of_eq (hg σ σ1).symm) hle)]
      · intro hgt hle
        obtain ⟨σ'', h''⟩ :=
          hlim1 (lt_of_lt_of_eq hgt (hg σ σ1)) hle
        refine ⟨g σ σ'', ?_⟩
        show (match m N σ with
          | (.ok v, σ') => (Res.ok v, g σ σ')
          | (.ret v, σ') => (Res.ret v, g σ σ')
          | (.err e, σ') => (Res.err e, g σ σ')) =
            (Res.err .limits, g σ σ'')
        rw [h'']
    | ret v =>
      have hc' : ((Res.ret v : Res Value), g σ σ1) = (r, σM) := hc
      injection hc' with h1 h2
      subst h1
      subst h2
      have hr1 : (Res.ret v : Res Value) ≠ Res.err .limits := by
        intro h; exact Res.noConfusion h
      obtain ⟨mono1, heq1, hlim1⟩ := hm σ (.ret v) σ1 hm1 hr1
      refine ⟨le_trans mono1 (le_of_eq (hg σ σ1).symm), ?_, ?_⟩
      · intro hle
        show (match m N σ with
          | (.ok v, σ') => (Res.ok v, g σ σ')
          | (.ret v, σ') => (Res.ret v, g σ σ')
          | (.err e, σ') => (Res.err e, g σ σ')) =
            ((Res.ret v : Res Value), g σ σ1)
        rw [heq1 (le_trans (le_of_eq (hg σ σ1).symm) hle)]
      · intro hgt hle
        obtain ⟨σ'', h''⟩ :=
          hlim1 (lt_of_lt_of_eq hgt (hg σ σ1)) hle
        refine ⟨g σ σ'', ?_⟩
        show (match m N σ with
          | (.ok v, σ') => (Res.ok v, g σ σ')
          | (.ret v, σ') => (Res.ret v, g σ σ')
          | (.err e, σ') => (Res.err e, g σ σ')) =
            (Res.err .limits, g σ σ'')
        rw [h'']
    | err e =>
      have hc' : ((Res.err e : Res Value), g σ σ1) = (r, σM) := hc
      injection hc' with h1 h2
      subst h1
      subst h2
      have hr1 : (Res.err e : Res Value) ≠ Res.err .limits := by
        intro h
        exact hr (by rw [show e = EvalErr.limits from Res.err.inj h])
      obtain ⟨mono1, heq1, hlim1⟩ := hm σ (.err e) σ1 hm1 hr1
      refine ⟨le_trans mono1 (le_of_eq (hg σ σ1).symm), ?_, ?_⟩
      · intro hle
        show (match m N σ with
          | (.ok v, σ') => (Res.ok v, g σ σ')
          | (.ret v, σ') => (Res.ret v, g σ σ')
          | (.err e, σ') => (Res.err e, g σ σ')) =
            ((Res.err e : Res Value), g σ σ1)
        rw [heq1 (le_trans (le_of_eq (hg σ σ1).symm) hle)]
      · intro hgt hle
        obtain ⟨σ'', h''⟩ :=
          hlim1 (lt_of_lt_of_eq hgt (hg σ σ1)) hle
        refine ⟨g σ σ'', ?_⟩
        show (match m N σ with
          | (.ok v, σ') => (Res.ok v, g σ σ')
          | (.ret v, σ') => (Res.ret v, g σ σ')
          | (.err e, σ') => (Res.err e, g σ σ')) =
            (Res.err .limits, g σ σ'')
        rw [h'']

/-- Like `simq_wrap`, but converting the return signal into a plain
result (applyFunction's ReturnValue catch, and `run`'s). -/
theorem simq_wrapRet {m : Nat → EvalM Value} (hm : SimQ N M m)
    (g : State → State → State)
    (hg : ∀ σ σ', (g σ σ').opCount = σ'.opCount) :
    SimQ N M (fun q σ =>
      match m q σ with
      | (.ok v, σ') => (Res.ok v, g σ σ')
      | (.ret v, σ') => (Res.ok v, g σ σ')
      | (.err e, σ') => (Res.err e, g σ σ')) := by
  intro σ r σM hc0 hr
  have hc : (match m M σ with
      | (.ok v, σ') => (Res.ok v, g σ σ')
      | (.ret v, σ') => (Res.ok v, g σ σ')
      | (.err e, σ') => (Res.err e, g σ σ')) = (r, σM) := hc0
  clear hc0
  cases hm1 : m M σ with
  | mk r1 σ1 =>
    rw [hm1] at hc
    cases r1 with
    | ok v =>
      have hc' : ((Res.ok v : Res Value), g σ σ1) = (r, σM) := hc
      injection hc' with h1 h2
      subst h1
      subst h2
      have hr1 : (Res.ok v : Res Value) ≠ Res.err .limits := by
        intro h; exact Res.noConfusion h
      obtain ⟨mono1, heq1, hlim1⟩ := hm σ (.ok v) σ1 hm1 hr1
      refine ⟨le_trans mono1 (le_of_eq (hg σ σ1).symm), ?_, ?_⟩
      · intro hle
        show (match m N σ with
          | (.ok v, σ') => (Res.ok v, g σ σ')
          | (.ret v, σ') => (Res.ok v, g σ σ')
          | (.err e, σ') => (Res.err e, g σ σ')) =
            ((Res.ok v : Res Value), g σ σ1)
        rw [heq1 (le_trans (le_of_eq (hg σ σ1).symm) hle)]
      · intro hgt hle
        obtain ⟨σ'', h''⟩ :=
          hlim1 (lt_of_lt_of_eq hgt (hg σ σ1)) hle
        refine ⟨g σ σ'', ?_⟩
        show (match m N σ with
          | (.ok v, σ') => (Res.ok v, g σ σ')
          | (.ret v, σ') => (Res.ok v, g σ σ')
          | (.err e, σ') => (Res.err e, g σ σ')) =
            (Res.err .limits, g σ σ'')
        rw [h'']
    | ret v =>
      have hc' : ((Res.ok v : Res Value), g σ σ1) = (r, σM) := hc
      injection hc' with h1 h2
      subst h1
      subst h2
      have hr1 : (Res.ret v : Res Value) ≠ Res.err .limits := by
        intro h; exact Res.noConfusion h
      obtain ⟨mono1, heq1, hlim1⟩ := hm σ (.ret v) σ1 hm1 hr1
      refine ⟨le_trans mono1 (le_of_eq (hg σ σ1).symm), ?_, ?_⟩
      · intro hle
        show (match m N σ with
          | (.ok v, σ') => (Res.ok v, g σ σ')
          | (.ret v, σ') => (Res.ok v, g σ σ')
          | (.err e, σ') => (Res.err e, g σ σ')) =
            ((Res.ok v : Res Value), g σ σ1)
        rw [heq1 (le_trans (le_of_eq (hg σ σ1).symm) hle)]
      · intro hgt hle
        obtain ⟨σ'', h''⟩ :=
          hlim1 (lt_of_lt_of_eq hgt (hg σ σ1)) hle
        refine ⟨g σ σ'', ?_⟩
        show (match m N σ with
          | (.ok v, σ') => (Res.ok v, g σ σ')
          | (.ret v, σ') => (Res.ok v, g σ σ')
          | (.err e, σ') => (Res.err e, g σ σ')) =
            (Res.err .limits, g σ σ'')
        rw [h'']
    | err e =>
      have hc' : ((Res.err e : Res Value), g σ σ1) = (r, σM) := hc
      injection hc' with h1 h2
      subst h1
      subst h2
      have hr1 : (Res.err e : Res Value) ≠ Res.err .limits := by
        intro h
        exact hr (by rw [show e = EvalErr.limits from Res.err.inj h])
      obtain ⟨mono1, heq1, hlim1⟩ := hm σ (.err e) σ1 hm1 hr1
      refine ⟨le_trans mono1 (le_of_eq (hg σ σ1).symm), ?_, ?_⟩
      · intro hle
        show (match m N σ with
          | (.ok v, σ') => (Res.ok v, g σ σ')
          | (.ret v, σ') => (Res.ok v, g σ σ')
          | (.err e, σ') => (Res.err e, g σ σ')) =
            ((Res.err e : Res Value), g σ σ1)
        rw [heq1 (le_trans (le_of_eq (hg σ σ1).symm) hle)]
      · intro hgt hle
        obtain ⟨σ'', h''⟩ :=
          hlim1 (lt_of_lt_of_eq hgt (hg σ σ1)) hle
        refine ⟨g σ σ'', ?_⟩
        show (match m N σ with
          | (.ok v, σ') => (Res.ok v, g σ σ')
          | (.ret v, σ') => (Res.ok v, g σ σ')
          | (.err e, σ') => (Res.err e, g σ σ')) =
            (Res.err .limits, g σ σ'')
        rw [h'']

/-- `SimQ` for the argument/element-list evaluation loop. -/
theorem simq_evalListWith {ev : Nat → AstNode → EvalM Value}
    (hev : ∀ n, SimQ N M (fun q => ev q n)) :
    ∀ ns, SimQ N M (fun q => evalListWith (ev q) ns) := by
  intro ns
  induction ns with
  | nil => exact simq_pure []
  | cons n rest ih =>
    exact simq_bind (hev n)
      (fun v => simq_bind ih (fun vs => simq_pure (v :: vs)))

/-- `SimQ` for the statement-sequence loop. -/
theorem simq_evalStmtsWith {ev : Nat → AstNode → EvalM Value}
    (hev : ∀ n, SimQ N M (fun q => ev q n)) :
    ∀ ns acc, SimQ N M (fun q => evalStmtsWith (ev q) ns acc) := by
  intro ns
  induction ns with
  | nil => intro acc; exact simq_pure acc
  | cons s rest ih =>
    intro acc
    exact simq_bind (hev s) (fun v => ih v)

/-- `SimQ` for the object-literal property loop. -/
theorem simq_evalObjWith {ev : Nat → AstNode → EvalM Value}
    (hev : ∀ n, SimQ N M (fun q => ev q n)) :
    ∀ props acc, SimQ N M (fun q => evalObjWith (ev q) props acc) := by
  intro props
  induction props with
  | nil => intro acc; exact simq_pure acc
  | cons p rest ih =>
    intro acc
    obtain ⟨k, n⟩ := p
    exact simq_bind (hev n) (fun v => ih (listUpsert acc k v))

/-- `SimQ` for function application. -/
theorem simq_applyFunctionWith {ev : Nat → AstNode → EvalM Value}
    (hev : ∀ n, SimQ N M (fun q => ev q n))
    (params : List String) (body : List AstNode) (closure : Env)
    (args : List Value) :
    SimQ N M
      (fun q => applyFunctionWith (ev q) params body closure args) :=
  simq_wrapRet
    (simq_premod (simq_evalStmtsWith hev body .vnull)
      (fun σ =>
        { σ with vars := bindParams (mergeEnv σ.vars closure) params args })
      (fun _ => rfl))
    (fun σ σ' => { σ' with vars := σ.vars }) (fun _ _ => rfl)

/-- `SimQ` for the map-native loop. -/
theorem simq_hoMapLoop {app : Nat → List Value → EvalM Value}
    (happ : ∀ as, SimQ N M (fun q => app q as)) :
    ∀ items i, SimQ N M (fun q => hoMapLoop (app q) items i) := by
  intro items
  induction items with
  | nil => intro i; exact simq_pure []
  | cons item rest ih =>
    intro i
    exact simq_bind (happ (cbArgs item i))
      (fun v => simq_bind (ih (i + 1)) (fun vs => simq_pure (v :: vs)))

/-- `SimQ` for the filter-native loop. -/
theorem simq_hoFilterLoop {app : Nat → List Value → EvalM Value}
    (happ : ∀ as, SimQ N M (fun q => app q as)) :
    ∀ items i, SimQ N M (fun q => hoFilterLoop (app q) items i) := by
  intro items
  induction items with
  | nil => intro i; exact simq_pure []
  | cons item rest ih =>
    intro i
    exact simq_bind (happ (cbArgs item i))
      (fun v => simq_bind (ih (i + 1))
        (fun vs => simq_ite (simq_pure (item :: vs)) (simq_pure vs)))

/-- `SimQ` for the reduce-native loop. -/
theorem simq_hoReduceLoop {app : Nat → List Value → EvalM Value}
    (happ : ∀ as, SimQ N M (fun q => app q as)) :
    ∀ items i acc, SimQ N M (fun q => hoReduceLoop (app q) items i acc) := by
  intro items
  induction items with
  | nil => intro i acc; exact simq_pure acc
  | cons item rest ih =>
    intro i acc
    exact simq_bind (happ [acc, item, .vnum i]) (fun v => ih (i + 1) v)

/-- `SimQ` for the find-native loop. -/
theorem simq_hoFindLoop {app : Nat → List Value → EvalM Value}
    (happ : ∀ as, SimQ N M (fun q => app q as)) :
    ∀ items i, SimQ N M (fun q => hoFindLoop (app q) items i) := by
  intro items
  induction items with
  | nil => intro i; exact simq_pure Value.vnull
  | cons item rest ih =>
    intro i
    exact simq_bind (happ (cbArgs item i))
      (fun v => simq_ite (simq_pure item) (ih (i + 1)))

/-- `SimQ` for the findIndex-native loop. -/
theorem simq_hoFindIdxLoop {app : Nat → List Value → EvalM Value}
    (happ : ∀ as, SimQ N M (fun q => app q as)) :
    ∀ items i, SimQ N M (fun q => hoFindIdxLoop (app q) items i) := by
  intro items
  induction items with
  | nil => intro i; exact simq_pure (Value.vnum (-1))
  | cons item rest ih =>
    intro i
    exact simq_bind (happ (cbArgs item i))
      (fun v => simq_ite (simq_pure (Value.vnum i)) (ih (i + 1)))

/-- `SimQ` for the for-statement iteration loop. -/
theorem simq_forLoopWith {ev : Nat → AstNode → EvalM Value}
    (hev : ∀ n, SimQ N M (fun q => ev q n))
    (name : String) (body : List AstNode) :
    ∀ items acc, SimQ N M (fun q => forLoopWith (ev q) name body items acc) := by
  intro items
  induction items with
  | nil => intro acc; exact simq_pure acc
  | cons item rest ih =>
    intro acc
    refine simq_congr (fun q σ => ?_)
      (simq_bind
        (simq_premod (simq_evalStmtsWith hev body Value.vnull)
          (fun σ => { σ with vars := σ.vars.set name item })
          (fun _ => rfl))
        (fun v => ih v))
    simp only [forLoopWith]
    cases hst : evalStmtsWith (ev q) body Value.vnull
        { σ with vars := σ.vars.set name item } with
    | mk r1 σ1 => cases r1 <;> simp [bind_apply, hst]

/-- `SimQ` for the string-template scan loop. -/
theorem simq_templLoopWith {ev : Nat → AstNode → EvalM Value}
    (hev : ∀ n, SimQ N M (fun q => ev q n)) :
    ∀ charFuel cs acc,
      SimQ N M (fun q => templLoopWith (ev q) charFuel cs acc) := by
  intro charFuel
  induction charFuel with
  | zero =>
    intro cs acc
    exact simq_stateOp (fun σ => (.err .fuelE, σ)) (fun _ => rfl)
  | succ cf ih =>
    intro cs acc
    cases cs with
    | nil => exact simq_pure (Value.vstr acc)
    | cons c rest =>
      by_cases hcond : c = ('$') ∧ rest.headD (' ') = ('\x7b')
      · rcases hbs : braceSplit 1 rest.tail with ⟨ec, r2⟩
        cases htk : tokenize (String.mk ec) with
        | error e =>
          refine simq_congr (fun q σ => ?_)
            (simq_stateOp (throwRt (lexMsg e)) (fun _ => rfl))
          simp only [templLoopWith]
          rw [if_pos hcond]
          simp only [hbs, htk]
        | ok toks =>
          cases hpe : parseExpression (parseFuel toks) toks 0 with
          | error e =>
            refine simq_congr (fun q σ => ?_)
              (simq_stateOp (throwRt (parseMsg e)) (fun _ => rfl))
            simp only [templLoopWith]
            rw [if_pos hcond]
            simp only [hbs, htk, hpe]
          | ok pr =>
            obtain ⟨expr, rest3⟩ := pr
            refine simq_congr (fun q σ => ?_)
              (simq_bind (hev expr)
                (fun v => ih r2
                  (acc ++ (match v with
                    | Value.vnull => ("null")
                    | w => jsString w))))
            simp only [templLoopWith]
            rw [if_pos hcond]
            simp only [hbs, htk, hpe]
      · refine simq_congr (fun q σ => ?_) (ih rest (acc.push c))
        simp only [templLoopWith]
        rw [if_neg hcond]

/-- evalIdent ignores the quota. -/
theorem evalIdent_quota (a b : Nat)
    (F : String → Option (List Value → Value)) (name : String) :
    evalIdent { quota := a, funcs := F } name =
      evalIdent { quota := b, funcs := F } name := rfl

/-- `SimQ` for identifier lookup. -/
theorem simq_evalIdent (F : String → Option (List Value → Value))
    (name : String) :
    SimQ N M (fun q => evalIdent { quota := q, funcs := F } name) := by
  intro σ r σM hc hr
  have hσ := evalIdent_state { quota := M, funcs := F } name σ
  have hc' : evalIdent { quota := M, funcs := F } name σ = (r, σM) := hc
  rw [hc'] at hσ
  have hσ2 : σM = σ := hσ
  refine ⟨le_of_eq (by rw [hσ2]), fun _ => ?_, fun hgt hle => ?_⟩
  · show evalIdent { quota := N, funcs := F } name σ = (r, σM)
    rw [evalIdent_quota N M F name]
    exact hc'
  · rw [hσ2] at hgt
    exact absurd hgt (not_lt.mpr hle)

set_option maxHeartbeats 4000000 in
/-- The quota simulation for the full evaluator: any two positive
quotas run in lockstep until the smaller is exhausted. -/
theorem simq_evaluate (F : String → Option (List Value → Value))
    (hN : 0 < N) (hM : 0 < M) :
    ∀ fuel node,
      SimQ N M (fun q => evaluate { quota := q, funcs := F } fuel node) := by
  intro fuel
  induction fuel with
  | zero =>
    intro node
    exact simq_stateOp (fun σ => (.err .fuelE, σ)) (fun _ => rfl)
  | succ fuel ih =>
    have hck := simq_checkLimits F hN hM
    intro node
    cases node with
    | numberLit v =>
      simp only [evaluate]
      exact simq_bind hck (fun _ => simq_pure (Value.vnum v))
    | stringLit v =>
      simp only [evaluate]
      exact simq_bind hck (fun _ => simq_pure (Value.vstr v))
    | booleanLit b =>
      simp only [evaluate]
      exact simq_bind hck (fun _ => simq_pure (Value.vbool b))
    | nullLit =>
      simp only [evaluate]
      exact simq_bind hck (fun _ => simq_pure Value.vnull)
    | identifier name =>
      simp only [evaluate]
      exact simq_bind hck (fun _ => simq_evalIdent F name)
    | stringTemplate parts =>
      simp only [evaluate]
      refine simq_bind hck (fun _ => ?_)
      cases parts with
      | nil =>
        exact simq_stateOp (throwRt ("template node malformed"))
          (fun _ => rfl)
      | cons p rest =>
        cases p <;>
          first
            | exact simq_stateOp (throwRt ("template node malformed"))
                (fun _ => rfl)
            | exact simq_templLoopWith (fun n => ih n) _ _ ("")
    | binaryExpr op l r =>
      simp only [evaluate]
      refine simq_bind hck (fun _ => ?_)
      refine simq_bind (ih l) (fun lv => ?_)
      refine simq_bind (ih r) (fun rv => ?_)
      exact simq_stateOp (applyBinary op lv rv)
        (fun σ => by rw [applyBinary_state])
    | unaryExpr op x =>
      simp only [evaluate]
      refine simq_bind hck (fun _ => ?_)
      refine simq_bind (ih x) (fun v => ?_)
      exact simq_stateOp (applyUnary op v)
        (fun σ => by rw [applyUnary_state])
    | callExpr callee argNodes =>
      cases callee
      case identifier nm =>
        simp only [evaluate]
        refine simq_bind hck (fun _ => ?_)
        refine simq_bind (simq_evalListWith (fun n => ih n) argNodes)
          (fun args => ?_)
        refine simq_ite ?_ ?_
        · cases h0 : args.getD 0 Value.vnull <;>
            cases h1 : args.getD 1 Value.vnull <;>
            first
              | exact simq_stateOp (throwRt ("unreachable")) (fun _ => rfl)
              | (refine simq_ite ?_ (simq_ite ?_ (simq_ite ?_ (simq_ite ?_ ?_)))
                 · exact simq_bind
                     (simq_hoMapLoop
                       (fun as =>
                         simq_applyFunctionWith (fun n => ih n) _ _ _ as)
                       _ 0)
                     (fun vs => simq_pure (Value.varr vs))
                 · exact simq_bind
                     (simq_hoFilterLoop
                       (fun as =>
                         simq_applyFunctionWith (fun n => ih n) _ _ _ as)
                       _ 0)
                     (fun vs => simq_pure (Value.varr vs))
                 · exact simq_hoReduceLoop
                     (fun as =>
                       simq_applyFunctionWith (fun n => ih n) _ _ _ as)
                     _ 0 _
                 · exact simq_hoFindLoop
                     (fun as =>
                       simq_applyFunctionWith (fun n => ih n) _ _ _ as)
                     _ 0
                 · exact simq_hoFindIdxLoop
                     (fun as =>
                       simq_applyFunctionWith (fun n => ih n) _ _ _ as)
                     _ 0)
        · try simp only [funcs_lit]
          cases hf : F nm with
          | some f =>
            exact simq_ite (simq_stateOp _ (fun _ => rfl))
              (simq_pure (f args))
          | none =>
            refine simq_bind (ih (AstNode.identifier nm))
              (fun calleeV => ?_)
            cases calleeV with
            | vfunc ps body cl =>
              exact simq_applyFunctionWith (fun n => ih n) ps body cl args
            | vnative nm2 =>
              try simp only [funcs_lit]
              cases hf2 : F nm2 with
              | some f => exact simq_pure (f args)
              | none =>
                exact simq_stateOp (throwRt (nm ++ (" is not a function")))
                  (fun _ => rfl)
            | vnull =>
              exact simq_stateOp (throwRt (nm ++ (" is not a function")))
                (fun _ => rfl)
            | vbool b =>
              exact simq_stateOp (throwRt (nm ++ (" is not a function")))
                (fun _ => rfl)
            | vnum x =>
              exact simq_stateOp (throwRt (nm ++ (" is not a function")))
                (fun _ => rfl)
            | vstr s =>
              exact simq_stateOp (throwRt (nm ++ (" is not a function")))
                (fun _ => rfl)
            | varr es =>
              exact simq_stateOp (throwRt (nm ++ (" is not a function")))
                (fun _ => rfl)
            | vobj fs =>
              exact simq_stateOp (throwRt (nm ++ (" is not a function")))
                (fun _ => rfl)
      all_goals
        simp only [evaluate]
        refine simq_bind hck (fun _ => ?_)
        refine simq_bind (simq_evalListWith (fun n => ih n) argNodes)
          (fun args => ?_)
        refine simq_bind (ih _) (fun calleeV => ?_)
        cases calleeV with
        | vfunc ps body cl =>
          exact simq_applyFunctionWith (fun n => ih n) ps body cl args
        | vnative nm2 =>
          try simp only [funcs_lit]
          cases hf : F nm2 with
          | some f => exact simq_pure (f args)
          | none =>
            exact simq_stateOp (throwRt ("value is not a function"))
              (fun _ => rfl)
        | vnull =>
          exact simq_stateOp (throwRt ("value is not a function"))
            (fun _ => rfl)
        | vbool b =>
          exact simq_stateOp (throwRt ("value is not a function"))
            (fun _ => rfl)
        | vnum x =>
          exact simq_stateOp (throwRt ("value is not a function"))
            (fun _ => rfl)
        | vstr s =>
          exact simq_stateOp (throwRt ("value is not a function"))
            (fun _ => rfl)
        | varr es =>
          exact simq_stateOp (throwRt ("value is not a function"))
            (fun _ => rfl)
        | vobj fs =>
          exact simq_stateOp (throwRt ("value is not a function"))
            (fun _ => rfl)
    | memberExpr objNode prop =>
      simp only [evaluate]
      refine simq_bind hck (fun _ => ?_)
      refine simq_bind (ih objNode) (fun obj => ?_)
      cases obj <;>
        first
          | exact simq_stateOp (throwRt _) (fun _ => rfl)
          | exact simq_pure _
    | safeMemberExpr objNode prop =>
      simp only [evaluate]
      refine simq_bind hck (fun _ => ?_)
      refine simq_bind (ih objNode) (fun obj => ?_)
      cases obj <;> exact simq_pure _
    | elvisExpr l r =>
      simp only [evaluate]
      refine simq_bind hck (fun _ => ?_)
      refine simq_bind (ih l) (fun lv => ?_)
      cases lv <;> first | exact ih r | exact simq_pure _
    | arrayLit elems =>
      simp only [evaluate]
      refine simq_bind hck (fun _ => ?_)
      exact simq_bind (simq_evalListWith (fun n => ih n) elems)
        (fun vs => simq_pure (Value.varr vs))
    | objectLit props =>
      simp only [evaluate]
      refine simq_bind hck (fun _ => ?_)
      exact simq_bind (simq_evalObjWith (fun n => ih n) props [])
        (fun fs => simq_pure (Value.vobj fs))
    | indexExpr objNode idxNode =>
      simp only [evaluate]
      refine simq_bind hck (fun _ => ?_)
      refine simq_bind (ih objNode) (fun obj => ?_)
      refine simq_bind (ih idxNode) (fun idx => ?_)
      cases obj <;>
        first
          | exact simq_ite (simq_pure _) (simq_pure _)
          | exact simq_pure _
    | functionLit ps body =>
      simp only [evaluate]
      exact simq_bind hck
        (fun _ => simq_stateOp
          (fun σ => (.ok (.vfunc ps body σ.vars), σ)) (fun _ => rfl))
    | letStmt name vNode =>
      simp only [evaluate]
      refine simq_bind hck (fun _ => ?_)
      refine simq_bind (ih vNode) (fun v => ?_)
      exact simq_stateOp
        (fun σ => (.ok v, { σ with vars := σ.vars.set name v }))
        (fun _ => rfl)
    | assignStmt name vNode =>
      simp only [evaluate]
      refine simq_bind hck (fun _ => ?_)
      refine simq_bind (ih vNode) (fun v => ?_)
      refine simq_stateOp _ (fun σ => ?_)
      rcases hv : σ.vars name with _ | w <;> simp [hv]
    | ifStmt cond thenB elseB =>
      simp only [evaluate]
      refine simq_bind hck (fun _ => ?_)
      refine simq_bind (ih cond) (fun c => ?_)
      refine simq_ite (ih thenB) ?_
      cases elseB with
      | some b => exact ih b
      | none => exact simq_pure Value.vnull
    | forStmt vn iterNode body =>
      simp only [evaluate]
      refine simq_bind hck (fun _ => ?_)
      refine simq_bind (ih iterNode) (fun iterable => ?_)
      cases iterable with
      | varr items =>
        refine simq_congr (fun q σ => ?_)
          (simq_wrap
            (simq_forLoopWith (fun n => ih n) vn body items Value.vnull)
            (fun σ σ' =>
              { σ' with vars :=
                  match σ.vars vn with
                  | none => σ'.vars.del vn
                  | some v => σ'.vars.set vn v })
            (fun _ _ => rfl))
        cases hfl : forLoopWith
            (fun n => evaluate { quota := q, funcs := F } fuel n)
            vn body items Value.vnull σ with
        | mk r1 σ1 => cases r1 <;> simp [hfl]
      | vnull => exact simq_stateOp (throwRt _) (fun _ => rfl)
      | vbool b => exact simq_stateOp (throwRt _) (fun _ => rfl)
      | vnum x => exact simq_stateOp (throwRt _) (fun _ => rfl)
      | vstr s => exact simq_stateOp (throwRt _) (fun _ => rfl)
      | vobj fs => exact simq_stateOp (throwRt _) (fun _ => rfl)
      | vfunc ps bd cl => exact simq_stateOp (throwRt _) (fun _ => rfl)
      | vnative nm => exact simq_stateOp (throwRt _) (fun _ => rfl)
    | whileStmt cond body =>
      simp only [evaluate]
      exact simq_bind hck
        (fun _ => simq_stateOp
          (throwRt ("Unknown node type: WhileStatement")) (fun _ => rfl))
    | returnStmt vNode =>
      simp only [evaluate]
      refine simq_bind hck (fun _ => ?_)
      cases vNode with
      | some x =>
        exact simq_bind (ih x)
          (fun v => simq_stateOp (throwRet v) (fun _ => rfl))
      | none => exact simq_stateOp (throwRet Value.vnull) (fun _ => rfl)
    | blockStmt stmts =>
      simp only [evaluate]
      exact simq_bind hck
        (fun _ => simq_evalStmtsWith (fun n => ih n) stmts Value.vnull)
    | exprStmt e =>
      simp only [evaluate]
      exact simq_bind hck (fun _ => ih e)
    | program stmts =>
      simp only [evaluate]
      exact simq_bind hck
        (fun _ => simq_evalStmtsWith (fun n => ih n) stmts Value.vnull)

/-- The quota simulation lifted to `Interpreter.run`. -/
theorem simq_runP (F : String → Option (List Value → Value))
    (hN : 0 < N) (hM : 0 < M) (fuel : Nat) (stmts : List AstNode) :
    SimQ N M (fun q => runP { quota := q, funcs := F } fuel stmts) := by
  refine simq_congr (fun q σ => ?_)
    (simq_wrapRet
      (simq_premod
        (simq_evalStmtsWith (fun n => simq_evaluate F hN hM fuel n)
          stmts Value.vnull)
        (fun σ => { σ with output := [] }) (fun _ => rfl))
      (fun σ σ' => σ') (fun _ _ => rfl))
  simp only [runP]

end SimQEval

/-! ### Quota 0 imposes no limit (for C6).

`NoLim m` says the computation never produces the quota error.  With
quota 0 `checkLimits` is a no-op, and `checkLimits` is the only place in
the interpreter that raises `LimitsExceededError`; an induction mirroring
the quota-simulation one makes that precise. -/

section NoLimEval

/-- Pointwise-equal computations share `NoLim`. -/
theorem nolim_congr {α : Type} {c c' : EvalM α}
    (h : ∀ σ, c σ = c' σ) (h' : NoLim c') : NoLim c := by
  intro σ
  rw [h]
  exact h' σ

/-- `pure` never raises the quota error. -/
theorem nolim_pure {α : Type} (a : α) : NoLim (pure a : EvalM α) :=
  fun _ h => Res.noConfusion h

/-- throwRt never raises the quota error. -/
theorem nolim_throwRt (msg : String) : NoLim (throwRt msg) :=
  fun _ h => EvalErr.noConfusion (Res.err.inj h)

/-- throwRet never raises the quota error. -/
theorem nolim_throwRet (v : Value) : NoLim (throwRet v) :=
  fun _ h => Res.noConfusion h

/-- The out-of-fuel artifact is not the quota error. -/
theorem nolim_fuelE {α : Type} :
    NoLim (fun σ => ((Res.err .fuelE : Res α), σ)) :=
  fun _ h => EvalErr.noConfusion (Res.err.inj h)

/-- A plain ok-result step never raises the quota error. -/
theorem nolim_ok {α : Type} (res : State → α) (f : State → State) :
    NoLim (fun σ => (Res.ok (res σ), f σ)) :=
  fun _ h => Res.noConfusion h

/-- With quota 0, checkLimits is a no-op. -/
theorem nolim_checkLimits0 (F : String → Option (List Value → Value)) :
    NoLim (checkLimits { quota := 0, funcs := F }) :=
  fun _ h => Res.noConfusion h

/-- `NoLim` is closed under bind. -/
theorem nolim_bind {α β : Type} {m : EvalM α} {k : α → EvalM β}
    (hm : NoLim m) (hk : ∀ a, NoLim (k a)) : NoLim (m >>= k) := by
  intro σ
  rw [bind_apply]
  cases hm1 : m σ with
  | mk r1 σ1 =>
    cases r1 with
    | ok a => exact hk a σ1
    | ret v => exact fun h => Res.noConfusion h
    | err e =>
      intro h
      have h3 : (Res.err e : Res β) = Res.err .limits := h
      have h4 : e = EvalErr.limits := Res.err.inj h3
      have h2 := hm σ
      rw [hm1] at h2
      exact h2 (by rw [h4])

/-- `NoLim` is closed under if-then-else. -/
theorem nolim_ite {α : Type} {P : Prop} [Decidable P] {c d : EvalM α}
    (hc : NoLim c) (hd : NoLim d) : NoLim (if P then c else d) := by
  by_cases h : P
  · rw [if_pos h]; exact hc
  · rw [if_neg h]; exact hd

/-- `NoLim` is closed under entry-state modification. -/
theorem nolim_premod {α : Type} {m : EvalM α} (hm : NoLim m)
    (g : State → State) : NoLim (fun σ => m (g σ)) :=
  fun σ => hm (g σ)

/-- `NoLim` is closed under kind-preserving state post-processing. -/
theorem nolim_wrap {m : EvalM Value} (hm : NoLim m)
    (g : State → State → State) :
    NoLim (fun σ =>
      match m σ with
      | (.ok v, σ') => (Res.ok v, g σ σ')
      | (.ret v, σ') => (Res.ret v, g σ σ')
      | (.err e, σ') => (Res.err e, g σ σ')) := by
  intro σ
  cases hm1 : m σ with
  | mk r1 σ1 =>
    show (match m σ with
      | (.ok v, σ') => (Res.ok v, g σ σ')
      | (.ret v, σ') => (Res.ret v, g σ σ')
      | (.err e, σ') => (Res.err e, g σ σ')).1 ≠ Res.err .limits
    rw [hm1]
    cases r1 with
    | ok v => exact fun h => Res.noConfusion h
    | ret v => exact fun h => Res.noConfusion h
    | err e =>
      intro h
      have h2 := hm σ
      rw [hm1] at h2
      exact h2 h

/-- `NoLim` is closed under the return-catching post-processing. -/
theorem nolim_wrapRet {m : EvalM Value} (hm : NoLim m)
    (g : State → State → State) :
    NoLim (fun σ =>
      match m σ with
      | (.ok v, σ') => (Res.ok v, g σ σ')
      | (.ret v, σ') => (Res.ok v, g σ σ')
      | (.err e, σ') => (Res.err e, g σ σ')) := by
  intro σ
  cases hm1 : m σ with
  | mk r1 σ1 =>
    show (match m σ with
      | (.ok v, σ') => (Res.ok v, g σ σ')
      | (.ret v, σ') => (Res.ok v, g σ σ')
      | (.err e, σ') => (Res.err e, g σ σ')).1 ≠ Res.err .limits
    rw [hm1]
    cases r1 with
    | ok v => exact fun h => Res.noConfusion h
    | ret v => exact fun h => Res.noConfusion h
    | err e =>
      intro h
      have h2 := hm σ
      rw [hm1] at h2
      exact h2 h

/-- Identifier lookup never raises the quota error. -/
theorem nolim_evalIdent (cfg : Config) (name : String) :
    NoLim (evalIdent cfg name) := by
  intro σ
  simp only [evalIdent]
  rcases hv : σ.vars name with _ | v
  · rcases hf : cfg.funcs name with _ | f <;> simp [hv, hf]
  · simp [hv]

/-- applyBinary never raises the quota error. -/
theorem nolim_applyBinary (op : String) (l r : Value) :
    NoLim (applyBinary op l r) := by
  rcases applyBinary_shape op l r with ⟨v, hv⟩ | ⟨msg, hm2⟩
  · rw [hv]; exact nolim_pure v
  · rw [hm2]; exact nolim_throwRt msg

/-- applyUnary never raises the quota error. -/
theorem nolim_applyUnary (op : String) (v : Value) :
    NoLim (applyUnary op v) := by
  rcases applyUnary_shape op v with ⟨w, hw⟩ | ⟨msg, hm2⟩
  · rw [hw]; exact nolim_pure w
  · rw [hm2]; exact nolim_throwRt msg

/-- `NoLim` for the list-evaluation loop. -/
theorem nolim_evalListWith {ev : AstNode → EvalM Value}
    (hev : ∀ n, NoLim (ev n)) :
    ∀ ns, NoLim (evalListWith ev ns) := by
  intro ns
  induction ns with
  | nil => exact nolim_pure []
  | cons n rest ih =>
    exact nolim_bind (hev n)
      (fun v => nolim_bind ih (fun vs => nolim_pure (v :: vs)))

/-- `NoLim` for the statement-sequence loop. -/
theorem nolim_evalStmtsWith {ev : AstNode → EvalM Value}
    (hev : ∀ n, NoLim (ev n)) :
    ∀ ns acc, NoLim (evalStmtsWith ev ns acc) := by
  intro ns
  induction ns with
  | nil => intro acc; exact nolim_pure acc
  | cons s rest ih =>
    intro acc
    exact nolim_bind (hev s) (fun v => ih v)

/-- `NoLim` for the object-literal loop. -/
theorem nolim_evalObjWith {ev : AstNode → EvalM Value}
    (hev : ∀ n, NoLim (ev n)) :
    ∀ props acc, NoLim (evalObjWith ev props acc) := by
  intro props
  induction props with
  | nil => intro acc; exact nolim_pure acc
  | cons p rest ih =>
    intro acc
    obtain ⟨k, n⟩ := p
    exact nolim_bind (hev n) (fun v => ih (listUpsert acc k v))

/-- `NoLim` for function application. -/
theorem nolim_applyFunctionWith {ev : AstNode → EvalM Value}
    (hev : ∀ n, NoLim (ev n))
    (params : List String) (body : List AstNode) (closure : Env)
    (args : List Value) :
    NoLim (applyFunctionWith ev params body closure args) :=
  nolim_wrapRet
    (nolim_premod (nolim_evalStmtsWith hev body .vnull)
      (fun σ =>
        { σ with vars := bindParams (mergeEnv σ.vars closure) params args }))
    (fun σ σ' => { σ' with vars := σ.vars })

/-- `NoLim` for the map-native loop. -/
theorem nolim_hoMapLoop {app : List Value → EvalM Value}
    (happ : ∀ as, NoLim (app as)) :
    ∀ items i, NoLim (hoMapLoop app items i) := by
  intro items
  induction items with
  | nil => intro i; exact nolim_pure []
  | cons item rest ih =>
    intro i
    exact nolim_bind (happ (cbArgs item i))
      (fun v => nolim_bind (ih (i + 1)) (fun vs => nolim_pure (v :: vs)))

/-- `NoLim` for the filter-native loop. -/
theorem nolim_hoFilterLoop {app : List Value → EvalM Value}
    (happ : ∀ as, NoLim (app as)) :
    ∀ items i, NoLim (hoFilterLoop app items i) := by
  intro items
  induction items with
  | nil => intro i; exact nolim_pure []
  | cons item rest ih =>
    intro i
    exact nolim_bind (happ (cbArgs item i))
      (fun v => nolim_bind (ih (i + 1))
        (fun vs => nolim_ite (nolim_pure (item :: vs)) (nolim_pure vs)))

/-- `NoLim` for the reduce-native loop. -/
theorem nolim_hoReduceLoop {app : List Value → EvalM Value}
    (happ : ∀ as, NoLim (app as)) :
    ∀ items i acc, NoLim (hoReduceLoop app items i acc) := by
  intro items
  induction items with
  | nil => intro i acc; exact nolim_pure acc
  | cons item rest ih =>
    intro i acc
    exact nolim_bind (happ [acc, item, .vnum i]) (fun v => ih (i + 1) v)

/-- `NoLim` for the find-native loop. -/
theorem nolim_hoFindLoop {app : List Value → EvalM Value}
    (happ : ∀ as, NoLim (app as)) :
    ∀ items i, NoLim (hoFindLoop app items i) := by
  intro items
  induction items with
  | nil => intro i; exact nolim_pure Value.vnull
  | cons item rest ih =>
    intro i
    exact nolim_bind (happ (cbArgs item i))
      (fun v => nolim_ite (nolim_pure item) (ih (i + 1)))

/-- `NoLim` for the findIndex-native loop. -/
theorem nolim_hoFindIdxLoop {app : List Value → EvalM Value}
    (happ : ∀ as, NoLim (app as)) :
    ∀ items i, NoLim (hoFindIdxLoop app items i) := by
  intro items
  induction items with
  | nil => intro i; exact nolim_pure (Value.vnum (-1))
  | cons item rest ih =>
    intro i
    exact nolim_bind (happ (cbArgs item i))
      (fun v => nolim_ite (nolim_pure (Value.vnum i)) (ih (i + 1)))

/-- `NoLim` for the for-statement iteration loop. -/
theorem nolim_forLoopWith {ev : AstNode → EvalM Value}
    (hev : ∀ n, NoLim (ev n))
    (name : String) (body : List AstNode) :
    ∀ items acc, NoLim (forLoopWith ev name body items acc) := by
  intro items
  induction items with
  | nil => intro acc; exact nolim_pure acc
  | cons item rest ih =>
    intro acc
    refine nolim_congr (fun σ => ?_)
      (nolim_bind
        (nolim_premod (nolim_evalStmtsWith hev body Value.vnull)
          (fun σ => { σ with vars := σ.vars.set name item }))
        (fun v => ih v))
    simp only [forLoopWith]
    cases hst : evalStmtsWith ev body Value.vnull
        { σ with vars := σ.vars.set name item } with
    | mk r1 σ1 => cases r1 <;> simp [bind_apply, hst]

/-- `NoLim` for the string-template scan loop. -/
theorem nolim_templLoopWith {ev : AstNode → EvalM Value}
    (hev : ∀ n, NoLim (ev n)) :
    ∀ charFuel cs acc, NoLim (templLoopWith ev charFuel cs acc) := by
  intro charFuel
  induction charFuel with
  | zero => intro cs acc; exact nolim_fuelE
  | succ cf ih =>
    intro cs acc
    cases cs with
    | nil => exact nolim_pure (Value.vstr acc)
    | cons c rest =>
      by_cases hcond : c = ('$') ∧ rest.headD (' ') = ('\x7b')
      · rcases hbs : braceSplit 1 rest.tail with ⟨ec, r2⟩
        cases htk : tokenize (String.mk ec) with
        | error e =>
          refine nolim_congr (fun σ => ?_) (nolim_throwRt (lexMsg e))
          simp only [templLoopWith]
          rw [if_pos hcond]
          simp only [hbs, htk]
        | ok toks =>
          cases hpe : parseExpression (parseFuel toks) toks 0 with
          | error e =>
            refine nolim_congr (fun σ => ?_) (nolim_throwRt (parseMsg e))
            simp only [templLoopWith]
            rw [if_pos hcond]
            simp only [hbs, htk, hpe]
          | ok pr =>
            obtain ⟨expr, rest3⟩ := pr
            refine nolim_congr (fun σ => ?_)
              (nolim_bind (hev expr)
                (fun v => ih r2
                  (acc ++ (match v with
                    | Value.vnull => ("null")
                    | w => jsString w))))
            simp only [templLoopWith]
            rw [if_pos hcond]
            simp only [hbs, htk, hpe]
      · refine nolim_congr (fun σ => ?_) (ih rest (acc.push c))
        simp only [templLoopWith]
        rw [if_neg hcond]

set_option maxHeartbeats 4000000 in
/-- With quota 0 the evaluator never raises the quota error: checkLimits
is the only source of `LimitsExceededError` and it is inactive. -/
theorem nolim_evaluate (F : String → Option (List Value → Value)) :
    ∀ fuel node, NoLim (evaluate { quota := 0, funcs := F } fuel node) := by
  intro fuel
  induction fuel with
  | zero =>
    intro node
    exact nolim_fuelE
  | succ fuel ih =>
    have hck := nolim_checkLimits0 F
    intro node
    cases node with
    | numberLit v =>
      simp only [evaluate]
      exact nolim_bind hck (fun _ => nolim_pure (Value.vnum v))
    | stringLit v =>
      simp only [evaluate]
      exact nolim_bind hck (fun _ => nolim_pure (Value.vstr v))
    | booleanLit b =>
      simp only [evaluate]
      exact nolim_bind hck (fun _ => nolim_pure (Value.vbool b))
    | nullLit =>
      simp only [evaluate]
      exact nolim_bind hck (fun _ => nolim_pure Value.vnull)
    | identifier name =>
      simp only [evaluate]
      exact nolim_bind hck (fun _ => nolim_evalIdent _ name)
    | stringTemplate parts =>
      simp only [evaluate]
      refine nolim_bind hck (fun _ => ?_)
      cases parts with
      | nil => exact nolim_throwRt ("template node malformed")
      | cons p rest =>
        cases p <;>
          first
            | exact nolim_throwRt ("template node malformed")
            | exact nolim_templLoopWith (fun n => ih n) _ _ ("")
    | binaryExpr op l r =>
      simp only [evaluate]
      refine nolim_bind hck (fun _ => ?_)
      refine nolim_bind (ih l) (fun lv => ?_)
      refine nolim_bind (ih r) (fun rv => ?_)
      exact nolim_applyBinary op lv rv
    | unaryExpr op x =>
      simp only [evaluate]
      refine nolim_bind hck (fun _ => ?_)
      refine nolim_bind (ih x) (fun v => ?_)
      exact nolim_applyUnary op v
    | callExpr callee argNodes =>
      cases callee
      case identifier nm =>
        simp only [evaluate]
        refine nolim_bind hck (fun _ => ?_)
        refine nolim_bind (nolim_evalListWith (fun n => ih n) argNodes)
          (fun args => ?_)
        refine nolim_ite ?_ ?_
        · cases h0 : args.getD 0 Value.vnull <;>
            cases h1 : args.getD 1 Value.vnull <;>
            first
              | exact nolim_throwRt ("unreachable")
              | (refine nolim_ite ?_ (nolim_ite ?_ (nolim_ite ?_ (nolim_ite ?_ ?_)))
                 · exact nolim_bind
                     (nolim_hoMapLoop
                       (fun as =>
                         nolim_applyFunctionWith (fun n => ih n) _ _ _ as)
                       _ 0)
                     (fun vs => nolim_pure (Value.varr vs))
                 · exact nolim_bind
                     (nolim_hoFilterLoop
                       (fun as =>
                         nolim_applyFunctionWith (fun n => ih n) _ _ _ as)
                       _ 0)
                     (fun vs => nolim_pure (Value.varr vs))
                 · exact nolim_hoReduceLoop
                     (fun as =>
                       nolim_applyFunctionWith (fun n => ih n) _ _ _ as)
                     _ 0 _
                 · exact nolim_hoFindLoop
                     (fun as =>
                       nolim_applyFunctionWith (fun n => ih n) _ _ _ as)
                     _ 0
                 · exact nolim_hoFindIdxLoop
                     (fun as =>
                       nolim_applyFunctionWith (fun n => ih n) _ _ _ as)
                     _ 0)
        · try simp only [funcs_lit]
          cases hf : F nm with
          | some f =>
            exact nolim_ite (nolim_ok (fun _ => Value.vnull) _)
              (nolim_pure (f args))
          | none =>
            refine nolim_bind (ih (AstNode.identifier nm))
              (fun calleeV => ?_)
            cases calleeV with
            | vfunc ps body cl =>
              exact nolim_applyFunctionWith (fun n => ih n) ps body cl args
            | vnative nm2 =>
              try simp only [funcs_lit]
              cases hf2 : F nm2 with
              | some f => exact nolim_pure (f args)
              | none => exact nolim_throwRt (nm ++ (" is not a function"))
            | vnull => exact nolim_throwRt (nm ++ (" is not a function"))
            | vbool b => exact nolim_throwRt (nm ++ (" is not a function"))
            | vnum x => exact nolim_throwRt (nm ++ (" is not a function"))
            | vstr s => exact nolim_throwRt (nm ++ (" is not a function"))
            | varr es => exact nolim_throwRt (nm ++ (" is not a function"))
            | vobj fs => exact nolim_throwRt (nm ++ (" is not a function"))
      all_goals
        simp only [evaluate]
        refine nolim_bind hck (fun _ => ?_)
        refine nolim_bind (nolim_evalListWith (fun n => ih n) argNodes)
          (fun args => ?_)
        refine nolim_bind (ih _) (fun calleeV => ?_)
        cases calleeV with
        | vfunc ps body cl =>
          exact nolim_applyFunctionWith (fun n => ih n) ps body cl args
        | vnative nm2 =>
          try simp only [funcs_lit]
          cases hf : F nm2 with
          | some f => exact nolim_pure (f args)
          | none => exact nolim_throwRt ("value is not a function")
        | vnull => exact nolim_throwRt ("value is not a function")
        | vbool b => exact nolim_throwRt ("value is not a function")
        | vnum x => exact nolim_throwRt ("value is not a function")
        | vstr s => exact nolim_throwRt ("value is not a function")
        | varr es => exact nolim_throwRt ("value is not a function")
        | vobj fs => exact nolim_throwRt ("value is not a function")
    | memberExpr objNode prop =>
      simp only [evaluate]
      refine nolim_bind hck (fun _ => ?_)
      refine nolim_bind (ih objNode) (fun obj => ?_)
      cases obj <;>
        first
          | exact nolim_throwRt _
          | exact nolim_pure _
    | safeMemberExpr objNode prop =>
      simp only [evaluate]
      refine nolim_bind hck (fun _ => ?_)
      refine nolim_bind (ih objNode) (fun obj => ?_)
      cases obj <;> exact nolim_pure _
    | elvisExpr l r =>
      simp only [evaluate]
      refine nolim_bind hck (fun _ => ?_)
      refine nolim_bind (ih l) (fun lv => ?_)
      cases lv <;> first | exact ih r | exact nolim_pure _
    | arrayLit elems =>
      simp only [evaluate]
      refine nolim_bind hck (fun _ => ?_)
      exact nolim_bind (nolim_evalListWith (fun n => ih n) elems)
        (fun vs => nolim_pure (Value.varr vs))
    | objectLit props =>
      simp only [evaluate]
      refine nolim_bind hck (fun _ => ?_)
      exact nolim_bind (nolim_evalObjWith (fun n => ih n) props [])
        (fun fs => nolim_pure (Value.vobj fs))
    | indexExpr objNode idxNode =>
      simp only [evaluate]
      refine nolim_bind hck (fun _ => ?_)
      refine nolim_bind (ih objNode) (fun obj => ?_)
      refine nolim_bind (ih idxNode) (fun idx => ?_)
      cases obj <;>
        first
          | exact nolim_ite (nolim_pure _) (nolim_pure _)
          | exact nolim_pure _
    | functionLit ps body =>
      simp only [evaluate]
      exact nolim_bind hck
        (fun _ => nolim_ok (fun σ => Value.vfunc ps body σ.vars) _)
    | letStmt name vNode =>
      simp only [evaluate]
      refine nolim_bind hck (fun _ => ?_)
      refine nolim_bind (ih vNode) (fun v => ?_)
      exact nolim_ok (fun _ => v) _
    | assignStmt name vNode =>
      simp only [evaluate]
      refine nolim_bind hck (fun _ => ?_)
      refine nolim_bind (ih vNode) (fun v => ?_)
      intro σ
      rcases hv : σ.vars name with _ | w <;> simp [hv]
    | ifStmt cond thenB elseB =>
      simp only [evaluate]
      refine nolim_bind hck (fun _ => ?_)
      refine nolim_bind (ih cond) (fun c => ?_)
      refine nolim_ite (ih thenB) ?_
      cases elseB with
      | some b => exact ih b
      | none => exact nolim_pure Value.vnull
    | forStmt vn iterNode body =>
      simp only [evaluate]
      refine nolim_bind hck (fun _ => ?_)
      refine nolim_bind (ih iterNode) (fun iterable => ?_)
      cases iterable with
      | varr items =>
        refine nolim_congr (fun σ => ?_)
          (nolim_wrap
            (nolim_forLoopWith (fun n => ih n) vn body items Value.vnull)
            (fun σ σ' =>
              { σ' with vars :=
                  match σ.vars vn with
                  | none => σ'.vars.del vn
                  | some v => σ'.vars.set vn v }))
        cases hfl : forLoopWith
            (fun n => evaluate { quota := 0, funcs := F } fuel n)
            vn body items Value.vnull σ with
        | mk r1 σ1 => cases r1 <;> simp [hfl]
      | vnull => exact nolim_throwRt _
      | vbool b => exact nolim_throwRt _
      | vnum x => exact nolim_throwRt _
      | vstr s => exact nolim_throwRt _
      | vobj fs => exact nolim_throwRt _
      | vfunc ps bd cl => exact nolim_throwRt _
      | vnative nm => exact nolim_throwRt _
    | whileStmt cond body =>
      simp only [evaluate]
      exact nolim_bind hck
        (fun _ => nolim_throwRt ("Unknown node type: WhileStatement"))
    | returnStmt vNode =>
      simp only [evaluate]
      refine nolim_bind hck (fun _ => ?_)
      cases vNode with
      | some x => exact nolim_bind (ih x) (fun v => nolim_throwRet v)
      | none => exact nolim_throwRet Value.vnull
    | blockStmt stmts =>
      simp only [evaluate]
      exact nolim_bind hck
        (fun _ => nolim_evalStmtsWith (fun n => ih n) stmts Value.vnull)
    | exprStmt e =>
      simp only [evaluate]
      exact nolim_bind hck (fun _ => ih e)
    | program stmts =>
      simp only [evaluate]
      exact nolim_bind hck
        (fun _ => nolim_evalStmtsWith (fun n => ih n) stmts Value.vnull)

/-- With quota 0 `run` never raises the quota error. -/
theorem nolim_runP (F : String → Option (List Value → Value))
    (fuel : Nat) (stmts : List AstNode) :
    NoLim (runP { quota := 0, funcs := F } fuel stmts) := by
  refine nolim_congr (fun σ => ?_)
    (nolim_wrapRet
      (nolim_premod
        (nolim_evalStmtsWith (fun n => nolim_evaluate F fuel n)
          stmts Value.vnull)
        (fun σ => { σ with output := [] }))
      (fun σ σ' => σ'))
  simp only [runP]

end NoLimEval

/-- C6: with positive operation quotas the run is a pure function of the
evaluation count.  Take any run under a positive quota M that does not
itself fail with the quota condition; its final operation counter is the
number of node evaluations the program requires (each evaluate call
increments it exactly once).  Then for every positive quota N: if the
program requires at most N evaluations the N-run completes with the
identical result and state, and if it requires more than N the N-run
fails with the quota-exceeded condition; and with quota 0 no run ever
fails with the quota condition. -/
theorem c6_quota_threshold
    (F : String → Option (List Value → Value))
    (fuel N M : Nat) (stmts : List AstNode) (σ : State)
    (hN : 0 < N) (hM : 0 < M) (hσ : σ.opCount = 0)
    (r : Res Value) (σM : State)
    (hrun : runP { quota := M, funcs := F } fuel stmts σ = (r, σM))
    (hnl : r ≠ Res.err .limits) :
    (σM.opCount ≤ N →
      runP { quota := N, funcs := F } fuel stmts σ = (r, σM)) ∧
    (N < σM.opCount →
      ∃ σ', runP { quota := N, funcs := F } fuel stmts σ =
        (Res.err .limits, σ')) ∧
    (∀ σ0, (runP { quota := 0, funcs := F } fuel stmts σ0).1 ≠
      Res.err .limits) := by
  obtain ⟨mono, heq, hlim⟩ :=
    simq_runP F hN hM fuel stmts σ r σM hrun hnl
  exact ⟨heq,
    fun hgt => hlim hgt (by rw [hσ]; exact Nat.zero_le N),
    fun σ0 => nolim_runP F fuel stmts σ0⟩

/-- Witness for C6: `let x = 1; x` requires 4 node evaluations (two
statements plus their subexpressions); under quota 100 it completes
with value 1 and counter 4, under quota 2 it fails with the quota
condition, and under quota 0 it cannot fail with the quota condition. -/
theorem c6_quota_threshold_witness :
    (∃ σ', runP { quota := 2, funcs := defaultFuncs } 10
        [AstNode.letStmt ("x") (AstNode.numberLit 1),
         AstNode.exprStmt (AstNode.identifier ("x"))]
        { vars := Env.empty, output := [], opCount := 0 } =
      (Res.err .limits, σ')) ∧
    (∀ σ0, (runP { quota := 0, funcs := defaultFuncs } 10
        [AstNode.letStmt ("x") (AstNode.numberLit 1),
         AstNode.exprStmt (AstNode.identifier ("x"))] σ0).1 ≠
      Res.err .limits) :=
  have T := c6_quota_threshold defaultFuncs 10 2 100
    [AstNode.letStmt ("x") (AstNode.numberLit 1),
     AstNode.exprStmt (AstNode.identifier ("x"))]
    { vars := Env.empty, output := [], opCount := 0 }
    (by decide) (by decide) rfl
    (Res.ok (Value.vnum 1))
    { vars := Env.set Env.empty ("x") (Value.vnum 1), output := [],
      opCount := 4 }
    rfl (fun h => Res.noConfusion h)
  ⟨T.2.1 (by decide), T.2.2⟩

end Kodi
